import Mathlib

/-!
Verification of the virtualized log-buffer and rendering-coordinate engine of
`src/ui/long_text_widget.py` (class `HugeTextWidget`).

The Python widget is shallowly embedded: strings become `List Char`, byte
strings become `List Nat`, Python dicts become association lists, and the
Qt-side collaborators (font metrics, codec, scroll geometry, painting) are
abstracted as function parameters carried in the widget state.  Every
definition mirrors the corresponding Python method; line numbers in comments
refer to `src/ui/long_text_widget.py`.
-/

set_option maxRecDepth 8000

namespace SPM

/-- Decoded text, a Python `str` as a list of characters. -/
abbrev Text := List Char

/-- Convenience: the character list of a Lean string literal. -/
def txt (s : String) : Text := s.data

/-- Pixel width of a text under a per-character width function
(`QFontMetrics.width`, abstracted). -/
def textWidth (cw : Char → Nat) (t : Text) : Nat := (t.map cw).sum

@[simp] theorem textWidth_nil (cw : Char → Nat) : textWidth cw [] = 0 := rfl

@[simp] theorem textWidth_cons (cw : Char → Nat) (c : Char) (t : Text) :
    textWidth cw (c :: t) = cw c + textWidth cw t := rfl

@[simp] theorem textWidth_append (cw : Char → Nat) (s t : Text) :
    textWidth cw (s ++ t) = textWidth cw s + textWidth cw t := by
  induction s with
  | nil => simp
  | cons c s ih => simp [ih, Nat.add_assoc]

/-! ### Python `str.splitlines`

`append_raw_bytes` (line 329) splits decoded text with `str.splitlines()`.
Python treats `\n`, `\r`, `\v`, `\f`, `\x1c`, `\x1d`, `\x1e`, `\x85`,
` `, ` ` as line boundaries and `\r\n` as a single boundary. -/

/-- The characters Python's `str.splitlines` treats as line boundaries. -/
def isLineBoundary (c : Char) : Bool :=
  c = '\n' || c = '\r' || c.toNat = 11 || c.toNat = 12 ||
  c.toNat = 28 || c.toNat = 29 || c.toNat = 30 || c.toNat = 133 ||
  c.toNat = 8232 || c.toNat = 8233

/-- Split off the first line: returns the leading segment and, when a line
boundary was found, the remaining text after the boundary (`\r\n` consumed
as one boundary). -/
def splitOnce : Text → Text × Option Text
  | [] => ([], none)
  | c :: rest =>
    if isLineBoundary c then
      if c = '\r' ∧ rest.head? = some '\n' then ([], some rest.tail)
      else ([], some rest)
    else
      let p := splitOnce rest
      (c :: p.1, p.2)

theorem splitOnce_length : ∀ (t r : Text), (splitOnce t).2 = some r → r.length < t.length := by
  intro t
  induction t with
  | nil => intro r h; simp [splitOnce] at h
  | cons c rest ih =>
    intro r h
    simp only [splitOnce] at h
    split at h
    · split at h
      · simp at h
        subst h
        have : rest.tail.length ≤ rest.length := by
          cases rest <;> simp
        simp [List.length_cons]
        omega
      · simp at h
        subst h
        simp [List.length_cons]
    · simp only at h
      have := ih r h
      simp [List.length_cons]
      omega

/-- The splitting loop, structurally recursive on a fuel bound so that it
reduces inside the kernel; each step consumes at least one character
(`splitOnce_length`), so a fuel of `t.length + 1` never runs out. -/
def splitlinesGo : Nat → Text → List Text
  | 0, _ => []
  | fuel + 1, t =>
    match splitOnce t with
    | (l, none) => if t = [] then [] else [l]
    | (l, some r) => l :: splitlinesGo fuel r

/-- Python `str.splitlines`. -/
def pySplitlines (t : Text) : List Text := splitlinesGo (t.length + 1) t

/-- Python `s.endswith('\n') or s.endswith('\r')` (lines 346, 353). -/
def endsNL (t : Text) : Bool :=
  t.getLast? = some '\n' || t.getLast? = some '\r'

/-! ### The wrap engine: `_get_wrapped_lines` (lines 412-479)

The Python loop keeps indices `current_start`/`current_end` delimiting the
segment under construction plus its accumulated width `current_width`; we
carry the segment itself (`curSeg`) instead of the two indices, which is the
same information since `curSeg = text[current_start:current_end]`. -/

/-- The character loop of `_get_wrapped_lines` (lines 443-469), including the
final flush of the open segment (lines 467-469).  For each character: if the
open segment is nonempty and would overflow, it is closed (lines 449-453);
then a character that alone exceeds the width is force-placed as its own
segment (lines 456-460), otherwise it extends the open segment
(lines 461-463). -/
def wrapLoop (cw : Char → Nat) (aw : Nat) :
    Text → Text → Nat → List Text → List Text
  | [], curSeg, _, acc =>
    if curSeg.length > 0 then acc ++ [curSeg] else acc
  | c :: rest, curSeg, curW, acc =>
    if curW + cw c > aw ∧ curSeg.length > 0 then
      -- close the current segment; the segment is now empty, so the
      -- force-place test only depends on the character's own width
      if cw c > aw then wrapLoop cw aw rest [] 0 ((acc ++ [curSeg]) ++ [[c]])
      else wrapLoop cw aw rest [c] (cw c) (acc ++ [curSeg])
    else
      if curSeg.length = 0 ∧ cw c > aw then
        wrapLoop cw aw rest [] 0 (acc ++ [[c]])
      else
        wrapLoop cw aw rest (curSeg ++ [c]) (curW + cw c) acc

/-- `_get_wrapped_lines` for nonempty text (lines 432-471): texts that fit are
a single segment; otherwise the greedy loop runs, with the defensive
`wrapped if wrapped else [text]` fallback of line 471. -/
def pyWrapCore (cw : Char → Nat) (aw : Nat) (text : Text) : List Text :=
  if textWidth cw text ≤ aw then [text]
  else
    let wrapped := wrapLoop cw aw text [] 0 []
    if wrapped = [] then [text] else wrapped

/-- `_get_wrapped_lines` as a pure function of the text, character widths and
available width: empty text yields `[""]` (line 420-421). -/
def pyWrap (cw : Char → Nat) (aw : Nat) (text : Text) : List Text :=
  if text = [] then [[]] else pyWrapCore cw aw text

/-! ### Properties of the wrap loop -/

/-- Width of a segment's first character (0 for the empty segment, which
`wrapLoop` never emits). -/
def headW (cw : Char → Nat) : Text → Nat
  | [] => 0
  | c :: _ => cw c

/-- A segment fits the available width, or is a force-placed single
character that alone exceeds it. -/
def segOk (cw : Char → Nat) (aw : Nat) (seg : Text) : Prop :=
  textWidth cw seg ≤ aw ∨ ∃ c, seg = [c] ∧ aw < cw c

/-- Greedy maximality between adjacent segments: the first character of the
next segment does not fit after the previous one. -/
def boundaryOk (cw : Char → Nat) (aw : Nat) (s₁ s₂ : Text) : Prop :=
  aw < textWidth cw s₁ + headW cw s₂

@[simp] theorem textWidth_singleton (cw : Char → Nat) (c : Char) :
    textWidth cw [c] = cw c := by simp [textWidth]

/-- Invariant-carrying specification of the greedy character loop. -/
theorem wrapLoop_spec (cw : Char → Nat) (aw : Nat) :
    ∀ (rest curSeg : Text) (acc : List Text),
      textWidth cw curSeg ≤ aw →
      (∀ seg ∈ acc, segOk cw aw seg ∧ seg ≠ []) →
      List.Chain' (boundaryOk cw aw) acc →
      (curSeg ≠ [] → ∀ lastSeg ∈ acc.getLast?, boundaryOk cw aw lastSeg curSeg) →
      (curSeg = [] → ∀ lastSeg ∈ acc.getLast?, aw < textWidth cw lastSeg) →
      (∀ seg ∈ wrapLoop cw aw rest curSeg (textWidth cw curSeg) acc,
          segOk cw aw seg ∧ seg ≠ []) ∧
      List.Chain' (boundaryOk cw aw) (wrapLoop cw aw rest curSeg (textWidth cw curSeg) acc) ∧
      (wrapLoop cw aw rest curSeg (textWidth cw curSeg) acc).flatten =
        acc.flatten ++ curSeg ++ rest := by
  intro rest
  induction rest with
  | nil =>
    intro curSeg acc hw hacc hchain hbound hempty
    by_cases hcs : curSeg.length > 0
    · have hne : curSeg ≠ [] := by
        intro h; rw [h] at hcs; simp at hcs
      simp only [wrapLoop, hcs, if_pos]
      refine ⟨?_, ?_, ?_⟩
      · intro seg hseg
        rcases List.mem_append.1 hseg with h | h
        · exact hacc seg h
        · simp at h; subst h
          exact ⟨Or.inl hw, hne⟩
      · rw [List.chain'_append]
        refine ⟨hchain, List.chain'_singleton _, ?_⟩
        intro x hx y hy
        simp at hy; subst hy
        exact hbound hne x hx
      · simp
    · simp only [wrapLoop, hcs, if_neg, not_false_iff]
      have : curSeg = [] := by
        cases curSeg with
        | nil => rfl
        | cons a b => simp at hcs
      subst this
      exact ⟨hacc, hchain, by simp⟩
  | cons c rest ih =>
    intro curSeg acc hw hacc hchain hbound hempty
    simp only [wrapLoop]
    by_cases h₁ : textWidth cw curSeg + cw c > aw ∧ curSeg.length > 0
    · have hcsne : curSeg ≠ [] := by
        intro h; rw [h] at h₁; simp at h₁
      have haccOk : ∀ seg ∈ acc ++ [curSeg], segOk cw aw seg ∧ seg ≠ [] := by
        intro seg hseg
        rcases List.mem_append.1 hseg with h | h
        · exact hacc seg h
        · simp at h; subst h; exact ⟨Or.inl hw, hcsne⟩
      have hchain' : List.Chain' (boundaryOk cw aw) (acc ++ [curSeg]) := by
        rw [List.chain'_append]
        refine ⟨hchain, List.chain'_singleton _, ?_⟩
        intro x hx y hy
        simp at hy; subst hy
        exact hbound hcsne x hx
      have hlast : (acc ++ [curSeg]).getLast? = some curSeg := List.getLast?_concat _
      by_cases h₂ : cw c > aw
      · simp only [h₁, and_self, if_pos, h₂, if_true]
        have hpush : ∀ seg ∈ (acc ++ [curSeg]) ++ [[c]], segOk cw aw seg ∧ seg ≠ [] := by
          intro seg hseg
          rcases List.mem_append.1 hseg with h | h
          · exact haccOk seg h
          · simp at h; subst h
            exact ⟨Or.inr ⟨c, rfl, h₂⟩, by simp⟩
        have hchain'' : List.Chain' (boundaryOk cw aw) ((acc ++ [curSeg]) ++ [[c]]) := by
          rw [List.chain'_append]
          refine ⟨hchain', List.chain'_singleton _, ?_⟩
          intro x hx y hy
          simp at hy; subst hy
          rw [hlast] at hx
          simp at hx; subst hx
          simp only [boundaryOk, headW]
          exact h₁.1
        have h0 : (0 : Nat) = textWidth cw [] := rfl
        rw [h0]
        obtain ⟨a, b, cjoin⟩ := ih [] ((acc ++ [curSeg]) ++ [[c]])
          (by simp) hpush hchain''
          (by intro h; exact absurd rfl h)
          (by intro _ lastSeg hl
              rw [List.getLast?_concat] at hl
              simp at hl; subst hl
              simpa using h₂)
        refine ⟨a, b, ?_⟩
        rw [cjoin]; simp
      · simp only [h₁, and_self, if_pos, h₂, if_neg, not_false_iff]
        have hc : cw c = textWidth cw [c] := by simp
        rw [hc]
        obtain ⟨a, b, cjoin⟩ := ih [c] (acc ++ [curSeg])
          (by simp; omega) haccOk hchain'
          (by intro _ lastSeg hl
              rw [hlast] at hl
              simp at hl; subst hl
              simp only [boundaryOk, headW]
              exact h₁.1)
          (by intro h; simp at h)
        refine ⟨a, b, ?_⟩
        rw [cjoin]; simp
    · simp only [h₁, if_neg, not_false_iff]
      by_cases h₂ : curSeg.length = 0 ∧ cw c > aw
      · have hcs : curSeg = [] := List.length_eq_zero.1 h₂.1
        simp only [h₂, and_self, if_pos]
        have hpush : ∀ seg ∈ acc ++ [[c]], segOk cw aw seg ∧ seg ≠ [] := by
          intro seg hseg
          rcases List.mem_append.1 hseg with h | h
          · exact hacc seg h
          · simp at h; subst h
            exact ⟨Or.inr ⟨c, rfl, h₂.2⟩, by simp⟩
        have hchain' : List.Chain' (boundaryOk cw aw) (acc ++ [[c]]) := by
          rw [List.chain'_append]
          refine ⟨hchain, List.chain'_singleton _, ?_⟩
          intro x hx y hy
          simp at hy; subst hy
          simp only [boundaryOk, headW]
          have := h₂.2
          omega
        have h0 : (0 : Nat) = textWidth cw [] := rfl
        rw [h0]
        obtain ⟨a, b, cjoin⟩ := ih [] (acc ++ [[c]])
          (by simp) hpush hchain'
          (by intro h; exact absurd rfl h)
          (by intro _ lastSeg hl
              rw [List.getLast?_concat] at hl
              simp at hl; subst hl
              simpa using h₂.2)
        refine ⟨a, b, ?_⟩
        rw [cjoin]; simp [hcs]
      · simp only [h₂, if_neg, not_false_iff]
        have hwidth : textWidth cw (curSeg ++ [c]) ≤ aw := by
          simp only [textWidth_append, textWidth_singleton]
          by_cases hcs : curSeg = []
          · subst hcs
            simp only [not_and, not_lt] at h₂
            have := h₂ (by simp)
            simpa using this
          · have hlen : curSeg.length > 0 := by
              cases curSeg with
              | nil => exact absurd rfl hcs
              | cons a b => simp
            omega
        have harg : textWidth cw curSeg + cw c = textWidth cw (curSeg ++ [c]) := by
          simp
        rw [harg]
        obtain ⟨a, b, cjoin⟩ := ih (curSeg ++ [c]) acc hwidth hacc hchain
          (by intro _ lastSeg hl
              by_cases hcs : curSeg = []
              · subst hcs
                have := hempty rfl lastSeg hl
                simp only [boundaryOk, List.nil_append, headW]
                omega
              · have hb := hbound hcs lastSeg hl
                simp only [boundaryOk] at hb ⊢
                have hh : headW cw (curSeg ++ [c]) = headW cw curSeg := by
                  cases curSeg with
                  | nil => exact absurd rfl hcs
                  | cons a b => simp [headW]
                rw [hh]
                exact hb)
          (by intro h; simp at h)
        refine ⟨a, b, ?_⟩
        rw [cjoin]; simp

/-! ### Python dicts as association lists

`_wrapped_lines_cache`, `_filter_cache` are Python dicts.  The widget only
ever stores under a key that is absent (store happens right after a failed
lookup), so a cons-based insert has exactly the dict's lookup semantics. -/

/-- Dict lookup. -/
def alookup {α β : Type} [DecidableEq α] : List (α × β) → α → Option β
  | [], _ => none
  | (k, v) :: r, a => if k = a then some v else alookup r a

@[simp] theorem alookup_nil {α β : Type} [DecidableEq α] (a : α) :
    alookup ([] : List (α × β)) a = none := rfl

@[simp] theorem alookup_cons {α β : Type} [DecidableEq α] (k : α) (v : β) (r : List (α × β)) (a : α) :
    alookup ((k, v) :: r) a = if k = a then some v else alookup r a := rfl

/-! ### The widget state

All fields of `HugeTextWidget.__init__` (lines 20-103) that the modeled
methods read or write.  Qt collaborators are abstracted:
`charWidth` stands for `QFontMetrics.width` of the current font (changed by
the font setters), `viewportWidth` for `viewport().width()` (changed by
`resizeEvent`), `decode`/`encode` for the codec selected by `_encoding`
(with `errors='replace'`, so they never fail).  The highlight engine,
scrollbar positions, timers and painting are outside the modeled fragment:
no claim refers to them, and `was_at_bottom`/scroll-ratio logic only moves
the scrollbar.  Timestamps (`time.time()` floats) are abstracted as `Nat`
instants supplied to each operation. -/

/-- `ViewMode` (lines 15-17). -/
inductive ViewMode where
  | textOnly
  | hexStream
deriving DecidableEq

/-- The compiled filter: `_filter_pattern` is either a plain string
(substring mode, Python `in`) or a compiled regex, abstracted as its
`search`-nonempty predicate. -/
inductive FilterPat where
  | substr (p : Text)
  | regex (search : Text → Bool)

/-- `_line_matches_filter`'s match step (lines 1040-1045): regex `search` or
substring containment. -/
def patMatches : FilterPat → Text → Bool
  | .substr p, t => decide (p <:+: t)
  | .regex f, t => f t

/-- The state of `HugeTextWidget`. -/
structure Widget where
  bytesPerLine : Nat
  decode : List Nat → Text
  encode : Text → List Nat
  maxLines : Nat
  lines : List Text
  currentLineIndex : Int
  lineTimestamps : List Nat
  rawBytes : List Nat
  lineOffset : Nat
  pendingUpdate : Bool
  viewMode : ViewMode
  showTimestamp : Bool
  autoScroll : Bool
  selStartPos : Option (Nat × Nat)
  selEndPos : Option (Nat × Nat)
  isSelecting : Bool
  highlightEnabled : Bool
  filterEnabled : Bool
  filterPattern : Option FilterPat
  filterCache : List (Nat × Bool)
  wrappedCache : List ((Nat × Nat) × List Text)
  cachedAvailableWidth : Option Nat
  cachedTotalDisplayLines : Nat
  totalDisplayLinesDirty : Bool
  charWidth : Char → Nat
  viewportWidth : Nat
  timestampWidth : Nat
  lineNumAreaWidth : Nat

/-- `self._char_width = max(1, self._font_metrics.width('A'))` (line 122),
recomputed from the same metrics on every `_update_metrics`, hence derived. -/
def charW (s : Widget) : Nat := max 1 (s.charWidth 'A')

/-- `_get_available_width` (lines 406-410): `max(1, viewport_w -
line_num_area_width - 10)`; `Nat` subtraction truncates at 0, matching
Python's `max(1, ·)` on a possibly negative value. -/
def availableWidth (s : Widget) : Nat :=
  max 1 (s.viewportWidth - s.lineNumAreaWidth - 10)

/-! ### Cached per-line reads -/

/-- `_line_matches_filter` (lines 1018-1052).  Returns the verdict and the
state with the result memoized under the offset-adjusted line index.  The
callers in the modeled fragment always pass the line's index, so `lineIdx`
is not optional here.  The `except` guard of line 1050 is unreachable for an
already-compiled pattern. -/
def lineMatchesFilter (s : Widget) (t : Text) (lineIdx : Nat) : Bool × Widget :=
  if ¬ s.filterEnabled ∨ s.filterPattern.isNone then (true, s)
  else
    let actualIdx := lineIdx + s.lineOffset
    match alookup s.filterCache actualIdx with
    | some b => (b, s)
    | none =>
      let result := match s.filterPattern with
        | some pat => patMatches pat t
        | none => true
      (result, { s with filterCache := (actualIdx, result) :: s.filterCache })

/-- `_get_wrapped_lines` (lines 412-479) with `use_cache=True` and the line
index given, as in every call of the modeled fragment: empty text returns
`[""]` before any cache interaction; otherwise the cache is consulted under
`(line_idx + line_offset, available_width)` and filled on a miss. -/
def getWrappedLines (s : Widget) (text : Text) (lineIdx : Nat) : List Text × Widget :=
  if text = [] then ([[]], s)
  else
    let aw := availableWidth s
    let key := (lineIdx + s.lineOffset, aw)
    match alookup s.wrappedCache key with
    | some v => (v, s)
    | none =>
      let result := pyWrapCore s.charWidth aw text
      (result, { s with wrappedCache := (key, result) :: s.wrappedCache })

/-- `_get_display_line_count` (lines 481-489): 0 out of range, 1 for an empty
line, else the wrap-segment count. -/
def getDisplayLineCount (s : Widget) (lineIdx : Nat) : Nat × Widget :=
  if lineIdx < s.lines.length then
    let t := s.lines.getD lineIdx []
    if t = [] then (1, s)
    else
      let p := getWrappedLines s t lineIdx
      (p.1.length, p.2)
  else (0, s)

/-- The filtered display-row counting loop shared verbatim by
`_get_total_display_lines` (lines 500-505) and the prefix loop of
`_source_row_col_to_display_row` (lines 602-605): skip rows failing the
filter, sum the others' display-line counts. -/
def filterCountGo : Widget → List Nat → Nat → Nat × Widget
  | s, [], acc => (acc, s)
  | s, i :: rest, acc =>
    let m := lineMatchesFilter s (s.lines.getD i []) i
    if m.1 then
      let c := getDisplayLineCount m.2 i
      filterCountGo c.2 rest (acc + c.1)
    else filterCountGo m.2 rest acc

/-- `_get_total_display_lines` (lines 491-510): cached unless dirty;
recomputation walks all lines and refreshes the cache. -/
def getTotalDisplayLines (s : Widget) : Nat × Widget :=
  if ¬ s.totalDisplayLinesDirty then (s.cachedTotalDisplayLines, s)
  else
    let p := filterCountGo s (List.range s.lines.length) 0
    (p.1, { p.2 with cachedTotalDisplayLines := p.1, totalDisplayLinesDirty := false })

/-- `_invalidate_total_display_lines_cache` (lines 512-514). -/
def invalidateTotalCache (s : Widget) : Widget :=
  { s with totalDisplayLinesDirty := true }

/-- `_update_scrollbars` (lines 1170-1196) restricted to the modeled state:
in text mode it reads `_get_total_display_lines()` (line 1181), whose cache
refresh is its only effect on the modeled fields; the scrollbar ranges
themselves are Qt-side. -/
def updateScrollbars (s : Widget) : Widget :=
  (getTotalDisplayLines s).2

/-- `_clear_wrapped_cache` (lines 148-152). -/
def clearWrappedCache (s : Widget) : Widget :=
  invalidateTotalCache { s with wrappedCache := [] }

/-- `_update_metrics` (lines 115-146): recompute the timestamp and
line-number area widths, clear the wrap cache only when the available width
changed relative to the recorded one (`None` counts as changed), record the
new width, and update the scrollbars. -/
def updateMetrics (s : Widget) : Widget :=
  let tsW := if s.showTimestamp then textWidth s.charWidth (txt "00:00:00.000 ") else 0
  let digits := if s.lines ≠ [] then (Nat.toDigits 10 s.lines.length).length else 4
  let lineNumW := 20 + digits * charW s
  let s₁ := { s with timestampWidth := tsW, lineNumAreaWidth := tsW + lineNumW }
  let newAW := availableWidth s₁
  let wc := if s.cachedAvailableWidth ≠ some newAW then [] else s.wrappedCache
  updateScrollbars { s₁ with wrappedCache := wc, cachedAvailableWidth := some newAW }

/-- `_update_line_num_width_dynamic` (lines 387-396). -/
def updateLineNumWidthDynamic (s : Widget) : Widget :=
  if s.lines = [] then s
  else
    let digits := (Nat.toDigits 10 s.lines.length).length
    let currentDigitsWidth : Int :=
      (s.lineNumAreaWidth : Int) - (s.timestampWidth : Int) - 20
    if (digits * charW s : Int) > currentDigitsWidth then updateMetrics s else s

/-- `_schedule_update` (lines 304-310): only the pending flag is in the
modeled state; the 50 ms timer that later runs `_do_pending_update` is a
separate event. -/
def scheduleUpdate (s : Widget) : Widget :=
  if ¬ s.pendingUpdate then { s with pendingUpdate := true } else s

/-- `_do_pending_update` (lines 292-302), the timer callback: refresh
scrollbars and the line-number width, then clear the pending flag
(auto-scroll only moves the scrollbar). -/
def doPendingUpdate (s : Widget) : Widget :=
  if s.pendingUpdate then
    { updateLineNumWidthDynamic (updateScrollbars s) with pendingUpdate := false }
  else s

/-- `resizeEvent` (lines 105-110): Qt updates the viewport geometry, then the
handler refreshes the scrollbars in text mode. -/
def resizeEvent (s : Widget) (newViewportWidth : Nat) : Widget :=
  let s₁ := { s with viewportWidth := newViewportWidth }
  if s₁.viewMode = ViewMode.textOnly then updateScrollbars s₁ else s₁

/-! ### Trimming and appending -/

/-- The eviction buffer `max(int(self._max_lines * self._trim_threshold),
100)` of line 192 with `_trim_threshold = 0.1`; the float product is modeled
as the exact rational, i.e. `maxLines / 10` rounded down. -/
def trimBuffer (maxLines : Nat) : Nat := max (maxLines / 10) 100

/-- `_trim_lines_if_needed` (lines 178-290).  Deletes the oldest
`excess + buffer` lines, shifts `current_line_index` and the selection,
bumps `_line_offset`, purges the per-line caches for the evicted index
range, invalidates the total cache, cancels the pending update and
refreshes the scrollbars.  Scroll-position restoration (lines 274-285) only
moves the scrollbar and is not part of the modeled state. -/
def trimLinesIfNeeded (s : Widget) : Widget :=
  if s.lines.length ≤ s.maxLines then s
  else
    let excess := s.lines.length - s.maxLines
    let deleteCount := excess + trimBuffer s.maxLines
    let cli :=
      if 0 ≤ s.currentLineIndex ∧ s.currentLineIndex < (deleteCount : Int) then (-1 : Int)
      else if s.currentLineIndex ≥ (deleteCount : Int) then s.currentLineIndex - deleteCount
      else s.currentLineIndex
    let sel₁ :=
      match s.selStartPos with
      | none => (s.selStartPos, s.selEndPos)
      | some (r, c) =>
        if r < deleteCount then (none, none)
        else (some (r - deleteCount, c), s.selEndPos)
    let sel₂ :=
      match sel₁.2 with
      | none => sel₁
      | some (r, c) =>
        if r < deleteCount then (none, none)
        else (sel₁.1, some (r - deleteCount, c))
    let deleteStart := s.lineOffset
    let deleteEnd := s.lineOffset + deleteCount
    let inRange : Nat → Bool := fun k => deleteStart ≤ k && k < deleteEnd
    let s₁ := { s with
      currentLineIndex := cli,
      selStartPos := sel₂.1,
      selEndPos := sel₂.2,
      lines := s.lines.drop deleteCount,
      lineTimestamps := s.lineTimestamps.drop deleteCount,
      lineOffset := s.lineOffset + deleteCount,
      wrappedCache := s.wrappedCache.filter (fun kv => ¬ inRange kv.1.1),
      filterCache := s.filterCache.filter (fun kv => ¬ inRange kv.1),
      totalDisplayLinesDirty := true,
      pendingUpdate := false }
    updateScrollbars s₁

/-- The line/timestamp merge of `append_raw_bytes` (lines 331-355): case A
(lines 333-347) concatenates the first decoded segment onto the last line
and appends the rest as new lines; case B (lines 348-355) appends all
segments as new lines. -/
def mergeLines (lines : List Text) (ts : List Nat) (isNewLineStart : Bool)
    (segs : List Text) (newText : Text) (now : Nat) : List Text × List Nat :=
  if isNewLineStart = false ∧ lines ≠ [] then
    if segs ≠ [] then
      let base := lines.dropLast ++ [(lines.getLast?.getD []) ++ segs.headD []]
      if segs.length > 1 then
        (base ++ segs.tail, ts ++ List.replicate (segs.length - 1) now)
      else (base, ts)
    else
      if newText ≠ [] ∧ ¬ endsNL newText then
        (lines.dropLast ++ [(lines.getLast?.getD []) ++ newText], ts)
      else (lines, ts)
  else
    if segs ≠ [] then
      (lines ++ segs, ts ++ List.replicate segs.length now)
    else
      if newText ≠ [] ∧ ¬ endsNL newText then
        (lines ++ [newText], ts ++ [now])
      else (lines, ts)

/-- Lines 316-361 of `append_raw_bytes`: extend the raw log, decode, split and
merge into `_lines`/`_line_timestamps`, then the timestamp-length patch of
lines 359-361.  `now` abstracts `time.time()`. -/
def appendDecodeStep (s : Widget) (data : List Nat) (now : Nat) : Widget :=
  let isNewLineStart : Bool :=
    if s.rawBytes ≠ [] ∧ s.rawBytes.getLast? ≠ some 10 then false else true
  let newText := s.decode data
  let lt := mergeLines s.lines s.lineTimestamps isNewLineStart
    (pySplitlines newText) newText now
  let ts' :=
    if lt.2.length < lt.1.length then
      lt.2 ++ List.replicate (lt.1.length - lt.2.length) now
    else lt.2
  { s with rawBytes := s.rawBytes ++ data, lines := lt.1, lineTimestamps := ts' }

/-- `len(self._lines) > self._max_lines * (1 + self._trim_threshold)`
(line 366) with the float `1.1` as the exact rational `11/10`. -/
def overTrimThreshold (numLines maxLines : Nat) : Prop :=
  10 * numLines > 11 * maxLines

instance (n m : Nat) : Decidable (overTrimThreshold n m) := by
  unfold overTrimThreshold; infer_instance

/-- `append_raw_bytes` (lines 312-385): early return on empty data, the
decode/merge step, the threshold-guarded trim, the total-cache invalidation,
and the final immediate-vs-batched UI update choice. -/
def appendRawBytes (s : Widget) (data : List Nat) (now : Nat) : Widget :=
  if data = [] then s
  else
    let s₁ := appendDecodeStep s data now
    if overTrimThreshold s₁.lines.length s₁.maxLines then
      let oldLineCount := s₁.lines.length
      let s₂ := trimLinesIfNeeded s₁
      let linesTrimmed := s₂.lines.length < oldLineCount
      let s₃ := invalidateTotalCache s₂
      if linesTrimmed then updateLineNumWidthDynamic s₃ else scheduleUpdate s₃
    else
      scheduleUpdate (invalidateTotalCache s₁)

/-! ### Remaining operations -/

/-- `clear` (lines 1198-1214). -/
def clearWidget (s : Widget) : Widget :=
  let s₁ := clearWrappedCache { s with
    lines := [], lineTimestamps := [], rawBytes := [], lineOffset := 0,
    selStartPos := none, selEndPos := none }
  let s₂ := { s₁ with
    filterCache := [],
    cachedTotalDisplayLines := 0, totalDisplayLinesDirty := false,
    pendingUpdate := false }
  updateScrollbars (updateMetrics s₂)

/-- `set_content` (lines 1216-1226). -/
def setContent (s : Widget) (text : Text) (now : Nat) : Widget :=
  let lines' := pySplitlines text
  let s₁ := { s with
    lines := lines',
    lineTimestamps := List.replicate lines'.length now,
    rawBytes := s.encode text,
    lineOffset := 0 }
  updateScrollbars (updateMetrics (clearWrappedCache s₁))

/-- `set_max_lines` (lines 162-172): clamp to at least 1, then trim
(`was_at_bottom` only steers the scrollbar). -/
def setMaxLines (s : Widget) (m : Nat) : Widget :=
  trimLinesIfNeeded { s with maxLines := max m 1 }

/-- `set_filter_pattern` (lines 1054-1082).  Compiling the pattern string is
codec/`re`-side work: the caller-visible outcome is the new
`_filter_pattern` value (`none` for an empty string or an invalid regex),
which the operation takes directly. -/
def setFilterPatternOp (s : Widget) (pat : Option FilterPat) : Widget :=
  let s₁ := { s with filterPattern := pat, filterCache := [] }
  updateScrollbars (invalidateTotalCache (clearWrappedCache s₁))

/-- `set_filter_enabled` (lines 1128-1142). -/
def setFilterEnabledOp (s : Widget) (enabled : Bool) : Widget :=
  let s₁ := { s with filterEnabled := enabled, filterCache := [] }
  updateScrollbars (invalidateTotalCache (clearWrappedCache s₁))

/-- `set_font_family` / `set_font_size` (lines 1144-1152): the font change
replaces the metrics (`charWidth`), then the wrap cache is cleared and the
layout recomputed. -/
def setFontWidths (s : Widget) (cw : Char → Nat) : Widget :=
  updateMetrics (clearWrappedCache { s with charWidth := cw })

/-- `set_show_timestamp` (lines 157-160). -/
def setShowTimestampOp (s : Widget) (flag : Bool) : Widget :=
  updateMetrics { s with showTimestamp := flag }

/-! ### Display row mapping -/

/-- Sum of the lengths of a list of segments. -/
def sumLens (l : List Text) : Nat := (l.map List.length).sum

/-- The source-row loop of `_display_row_to_source_row_col` (lines 566-586),
over the remaining source-row indices with the accumulated display row. -/
def dispToSrcGo : Widget → List Nat → Nat → Nat → Option (Nat × Nat) × Widget
  | s, [], _, _ => (none, s)
  | s, i :: rest, cur, d =>
    let t := s.lines.getD i []
    let m := lineMatchesFilter s t i
    if m.1 then
      let c := getDisplayLineCount m.2 i
      if cur + c.1 > d then
        let w := getWrappedLines c.2 t i
        if d - cur < w.1.length then
          (some (i, sumLens (w.1.take (d - cur))), w.2)
        else (some (i, t.length), w.2)
      else dispToSrcGo c.2 rest (cur + c.1) d
    else dispToSrcGo m.2 rest cur d

/-- The reversed fallback scan of lines 590-592: the last filter-passing
line. -/
def lastMatchGo : Widget → List Nat → Option (Nat × Nat) × Widget
  | s, [] => (none, s)
  | s, i :: rest =>
    let t := s.lines.getD i []
    let m := lineMatchesFilter s t i
    if m.1 then (some (i, t.length), m.2) else lastMatchGo m.2 rest

/-- `_display_row_to_source_row_col` (lines 564-594). -/
def displayRowToSource (s : Widget) (d : Nat) : (Nat × Nat) × Widget :=
  match dispToSrcGo s (List.range s.lines.length) 0 d with
  | (some rc, s') => (rc, s')
  | (none, s') =>
    if s'.lines ≠ [] then
      match lastMatchGo s' (List.range s'.lines.length).reverse with
      | (some rc, s'') => (rc, s'')
      | (none, s'') =>
        ((s''.lines.length - 1, (s''.lines.getLast?.getD []).length), s'')
    else ((0, 0), s')

/-- The wrap-segment scan of `_source_row_col_to_display_row`
(lines 613-617): first segment index whose character range contains `col`. -/
def segScan (col : Nat) : List Text → Nat → Nat → Option Nat
  | [], _, _ => none
  | seg :: rest, cc, j =>
    if col < cc + seg.length then some j
    else segScan col rest (cc + seg.length) (j + 1)

/-- `_source_row_col_to_display_row` (lines 596-620). -/
def sourceToDisplayRow (s : Widget) (srcRow : Nat) (col : Nat) : Nat × Widget :=
  if srcRow ≥ s.lines.length then (0, s)
  else
    let p := filterCountGo s (List.range srcRow) 0
    let t := p.2.lines.getD srcRow []
    let m := lineMatchesFilter p.2 t srcRow
    if ¬ m.1 then (p.1, m.2)
    else
      let w := getWrappedLines m.2 t srcRow
      match segScan col w.1 0 0 with
      | some j => (p.1 + j, w.2)
      | none => (p.1 + w.1.length - 1, w.2)

/-- `goto_line` (lines 1353-1363): in range, record the current line and map
it to a display row (the scrollbar jump is Qt-side); out of range, return
`False` without touching anything. -/
def gotoLine (s : Widget) (lineNo : Int) : Bool × Widget :=
  let lineIdx := lineNo - 1
  if 0 ≤ lineIdx ∧ lineIdx < (s.lines.length : Int) then
    let s₁ := { s with currentLineIndex := lineIdx }
    let p := sourceToDisplayRow s₁ lineIdx.toNat 0
    (true, p.2)
  else (false, s)

/-- The widget right after `__init__` (lines 20-103): the literal field
values of lines 24-94 followed by the `_update_metrics()` call of line 96.
The abstract collaborators (font metrics, codec) and the initial viewport
width are parameters. -/
def initWidget (cw : Char → Nat) (dec : List Nat → Text) (enc : Text → List Nat)
    (vw : Nat) : Widget :=
  updateMetrics {
    bytesPerLine := 32, decode := dec, encode := enc, maxLines := 50000,
    lines := [], currentLineIndex := -1, lineTimestamps := [], rawBytes := [],
    lineOffset := 0, pendingUpdate := false, viewMode := ViewMode.textOnly,
    showTimestamp := false, autoScroll := true, selStartPos := none,
    selEndPos := none, isSelecting := false, highlightEnabled := true,
    filterEnabled := false, filterPattern := none, filterCache := [],
    wrappedCache := [], cachedAvailableWidth := none,
    cachedTotalDisplayLines := 0, totalDisplayLinesDirty := true,
    charWidth := cw, viewportWidth := vw, timestampWidth := 0,
    lineNumAreaWidth := 0 }

/-! ### Read-through values

The cached readers above both return a value and memoize it.  Because a
miss stores exactly the freshly computed value, the value returned by each
reader is a pure function of the state it was called in; these `…RT`
functions are those pure values, used to state and prove the claims. -/

/-- Value of `_get_wrapped_lines(self._lines[i], line_idx=i)` in state `s`. -/
def wrappedRT (s : Widget) (i : Nat) : List Text :=
  let t := s.lines.getD i []
  if t = [] then [[]]
  else
    match alookup s.wrappedCache (i + s.lineOffset, availableWidth s) with
    | some v => v
    | none => pyWrapCore s.charWidth (availableWidth s) t

/-- Value of `_line_matches_filter(self._lines[i], line_idx=i)` in state `s`. -/
def matchesRT (s : Widget) (i : Nat) : Bool :=
  if ¬ s.filterEnabled ∨ s.filterPattern.isNone then true
  else
    match alookup s.filterCache (i + s.lineOffset) with
    | some b => b
    | none =>
      match s.filterPattern with
      | some pat => patMatches pat (s.lines.getD i [])
      | none => true

/-- Value of `_get_display_line_count(i)` for an in-range `i` in state `s`. -/
def countRT (s : Widget) (i : Nat) : Nat :=
  if s.lines.getD i [] = [] then 1 else (wrappedRT s i).length

/-- Pure value of the filtered display-row counting loop `filterCountGo`. -/
def prefixRT (s : Widget) : List Nat → Nat → Nat
  | [], acc => acc
  | i :: rest, acc =>
    if matchesRT s i then prefixRT s rest (acc + countRT s i)
    else prefixRT s rest acc

/-- Pure value of `_get_total_display_lines`'s recomputation (lines 500-505). -/
def totalRT (s : Widget) : Nat := prefixRT s (List.range s.lines.length) 0

/-- Pure value of the source-row loop of `_display_row_to_source_row_col`. -/
def dispToSrcPure (s : Widget) (d : Nat) : List Nat → Nat → Option (Nat × Nat)
  | [], _ => none
  | i :: rest, cur =>
    if matchesRT s i then
      if cur + countRT s i > d then
        if d - cur < (wrappedRT s i).length then
          some (i, sumLens ((wrappedRT s i).take (d - cur)))
        else some (i, (s.lines.getD i []).length)
      else dispToSrcPure s d rest (cur + countRT s i)
    else dispToSrcPure s d rest cur

/-- Pure value of `_source_row_col_to_display_row`. -/
def srcToDispPure (s : Widget) (r c : Nat) : Nat :=
  if r ≥ s.lines.length then 0
  else
    let dr := prefixRT s (List.range r) 0
    if ¬ matchesRT s r then dr
    else
      match segScan c (wrappedRT s r) 0 0 with
      | some j => dr + j
      | none => dr + (wrappedRT s r).length - 1

/-! ### Spec-side recomputation

`specTotalDisplayRows` is the *specification's* independent recomputation of
the display-row total, written from the spec sentence "the sum over
filter-passing lines of their wrap-segment count at the current viewport
width (recomputed independently)": the filter verdict and the wrap both
freshly evaluated, no cache consulted. -/

/-- Fresh filter verdict for line `i`, ignoring `_filter_cache`. -/
def freshMatch (s : Widget) (i : Nat) : Bool :=
  if ¬ s.filterEnabled ∨ s.filterPattern.isNone then true
  else
    match s.filterPattern with
    | some pat => patMatches pat (s.lines.getD i [])
    | none => true

/-- The independently recomputed display-row total of the spec. -/
def specTotalDisplayRows (s : Widget) : Nat :=
  (((List.range s.lines.length).filter (freshMatch s)).map
    (fun i => (pyWrap s.charWidth (availableWidth s) (s.lines.getD i [])).length)).sum

/-! ### State predicates -/

/-- Every wrap-cache entry is a nonempty list of nonempty segments.  The
widget only ever stores `pyWrapCore` results of nonempty texts (empty texts
return `[""]` before the cache), so this holds of every reachable state. -/
def wrapCacheWF (s : Widget) : Prop :=
  ∀ k v, alookup s.wrappedCache k = some v → v ≠ [] ∧ ∀ seg ∈ v, seg ≠ []

/-- The per-line caches agree with fresh recomputation on every live line
(no stale entries). -/
def cachesFresh (s : Widget) : Prop :=
  ∀ i, i < s.lines.length →
    wrappedRT s i = pyWrap s.charWidth (availableWidth s) (s.lines.getD i []) ∧
    matchesRT s i = freshMatch s i

/-- Timestamp/line agreement: every live line has exactly one timestamp. -/
def tsLinesEq (s : Widget) : Prop :=
  s.lineTimestamps.length = s.lines.length

/-- The mutating readers never change read-through values, lines or metrics:
the state relation every cached read and every walk preserves. -/
def RTpres (s s' : Widget) : Prop :=
  s'.lines = s.lines ∧ s'.lineOffset = s.lineOffset ∧
  s'.charWidth = s.charWidth ∧ availableWidth s' = availableWidth s ∧
  (∀ i, wrappedRT s' i = wrappedRT s i) ∧
  (∀ i, matchesRT s' i = matchesRT s i)

/-! ### Operation sequences for the raw-log claims -/

/-- The operations that can trigger a trim: appends and `set_max_lines`. -/
inductive LogOp where
  | append (data : List Nat) (now : Nat)
  | setMax (m : Nat)

/-- Apply one operation. -/
def applyLogOp (s : Widget) : LogOp → Widget
  | .append data now => appendRawBytes s data now
  | .setMax m => setMaxLines s m

/-- Apply a sequence of operations, oldest first. -/
def applyLogOps (s : Widget) : List LogOp → Widget
  | [] => s
  | op :: rest => applyLogOps (applyLogOp s op) rest

/-- Total number of bytes the sequence appends. -/
def appendedBytes : List LogOp → Nat
  | [] => 0
  | .append data _ :: rest => data.length + appendedBytes rest
  | .setMax _ :: rest => appendedBytes rest

/-! ### Concrete fixtures

A fixed-width font (every glyph 10 px), an ASCII codec, and small states
used by the witnesses and counterexamples. -/

/-- A fixed-width font metric: every character 10 px wide. -/
def cw10 : Char → Nat := fun _ => 10

/-- ASCII decoding (faithful to `bytes.decode` on ASCII input, which is all
the fixtures use). -/
def asciiDec : List Nat → Text := fun bs => bs.map (fun b => Char.ofNat b)

/-- ASCII encoding. -/
def asciiEnc : Text → List Nat := fun t => t.map (fun c => c.toNat)

/-- Byte string of an ASCII Lean string literal. -/
def bytesOf (s : String) : List Nat := s.data.map (fun c => c.toNat)

/-- A freshly constructed widget with the fixture collaborators and a 200 px
viewport. -/
def fixW0 : Widget := initWidget cw10 asciiDec asciiEnc 200

/-- State for the C1 counterexample: one appended line `"aaaa"`, the display
total computed and cached at a 200 px viewport, then a resize to 100 px
(which shrinks the available text width from 130 px to 30 px). -/
def cexC1 : Widget :=
  resizeEvent (resizeEvent (appendRawBytes fixW0 (bytesOf "aaaa\n") 1) 200) 100

/-- State for the C2 counterexample: `max_lines = 200` and 220 one-character
lines, one short of the `> max_lines * 1.1` trim threshold. -/
def cexC2 : Widget :=
  { fixW0 with
      maxLines := 200
      lines := List.replicate 220 (txt "a")
      lineTimestamps := List.replicate 220 0
      rawBytes := [10] }

/-- C3 scenario, first append: `append("line1\nline2\n")`. -/
def c3s1 : Widget := appendRawBytes fixW0 (bytesOf "line1\nline2\n") 5

/-- C3 scenario, second append: `append("line3")` (no terminator). -/
def c3s2 : Widget := appendRawBytes c3s1 (bytesOf "line3") 6

/-- C3 scenario, third append: `append(" more\n")`. -/
def c3s3 : Widget := appendRawBytes c3s2 (bytesOf " more\n") 7

/-- State for the C6 witness: one appended line whose wrap result has been
cached by a scrollbar refresh (via a same-size resize event). -/
def witC6 : Widget := resizeEvent (appendRawBytes fixW0 (bytesOf "aaaa\n") 1) 200

/-- State for the C7 counterexample: two lines. -/
def cexC7 : Widget :=
  { fixW0 with lines := [txt "x", txt "y"], lineTimestamps := [0, 0] }

/-- State for the C5 witness: one line `"aaaa"` wrapping into two segments at
the 30 px available width of a 100 px viewport, substring filter enabled. -/
def witC5 : Widget :=
  { fixW0 with
      viewportWidth := 100
      lines := [txt "aaaa", txt "bb"]
      lineTimestamps := [0, 0]
      filterEnabled := true
      filterPattern := some (FilterPat.substr (txt "a")) }

/-! ## Theorems

First the library of lemmas about the embedded operations, then one theorem
per claim (with its witness or counterexample). -/

/-! ### Wrap-engine properties -/

theorem pyWrap_empty (cw : Char → Nat) (aw : Nat) : pyWrap cw aw [] = [[]] := rfl

theorem pyWrapCore_props (cw : Char → Nat) (aw : Nat) (t : Text) (ht : t ≠ []) :
    (∀ seg ∈ pyWrapCore cw aw t, segOk cw aw seg ∧ seg ≠ []) ∧
    List.Chain' (boundaryOk cw aw) (pyWrapCore cw aw t) ∧
    (pyWrapCore cw aw t).flatten = t := by
  rw [pyWrapCore]
  split
  · refine ⟨?_, List.chain'_singleton _, by simp⟩
    intro seg hseg
    simp at hseg
    subst hseg
    exact ⟨Or.inl (by assumption), ht⟩
  · obtain ⟨hsegs, hchain, hflat⟩ :=
      wrapLoop_spec cw aw t [] []
        (by simp) (by simp) List.chain'_nil
        (by intro _ lastSeg hl; simp at hl)
        (by intro _ lastSeg hl; simp at hl)
    have h0 : textWidth cw [] = 0 := rfl
    rw [h0] at hsegs hchain hflat
    simp only [List.flatten_nil, List.nil_append] at hflat
    have hne : wrapLoop cw aw t [] 0 [] ≠ [] := by
      intro h
      rw [h] at hflat
      simp at hflat
      exact ht hflat
    simp only [hne, if_neg, not_false_iff]
    exact ⟨hsegs, hchain, hflat⟩

theorem pyWrap_flatten (cw : Char → Nat) (aw : Nat) (t : Text) :
    (pyWrap cw aw t).flatten = t := by
  rw [pyWrap]
  split
  · simp [*]
  · exact (pyWrapCore_props cw aw t (by assumption)).2.2

theorem pyWrap_ne_nil (cw : Char → Nat) (aw : Nat) (t : Text) :
    pyWrap cw aw t ≠ [] := by
  intro h
  have hflat := pyWrap_flatten cw aw t
  rw [h] at hflat
  simp at hflat
  subst hflat
  rw [pyWrap_empty] at h
  simp at h

theorem pyWrap_segOk (cw : Char → Nat) (aw : Nat) (t : Text) :
    ∀ seg ∈ pyWrap cw aw t, segOk cw aw seg := by
  rw [pyWrap]
  split
  · intro seg hseg
    simp at hseg
    subst hseg
    exact Or.inl (by simp [textWidth])
  · intro seg hseg
    exact ((pyWrapCore_props cw aw t (by assumption)).1 seg hseg).1

theorem pyWrap_seg_ne_nil (cw : Char → Nat) (aw : Nat) (t : Text) (ht : t ≠ []) :
    ∀ seg ∈ pyWrap cw aw t, seg ≠ [] := by
  rw [pyWrap]
  simp only [ht, if_neg, not_false_iff]
  intro seg hseg
  exact ((pyWrapCore_props cw aw t ht).1 seg hseg).2

theorem pyWrap_chain (cw : Char → Nat) (aw : Nat) (t : Text) :
    List.Chain' (boundaryOk cw aw) (pyWrap cw aw t) := by
  rw [pyWrap]
  split
  · exact List.chain'_singleton _
  · exact (pyWrapCore_props cw aw t (by assumption)).2.1

theorem pyWrap_length_pos (cw : Char → Nat) (aw : Nat) (t : Text) :
    1 ≤ (pyWrap cw aw t).length := by
  have := pyWrap_ne_nil cw aw t
  cases h : pyWrap cw aw t with
  | nil => exact absurd h this
  | cons a b => simp

/-! ### Read-through machinery -/

theorem RTpres_refl (s : Widget) : RTpres s s :=
  ⟨rfl, rfl, rfl, rfl, fun _ => rfl, fun _ => rfl⟩

theorem RTpres_trans {s₁ s₂ s₃ : Widget} (h₁ : RTpres s₁ s₂) (h₂ : RTpres s₂ s₃) :
    RTpres s₁ s₃ := by
  obtain ⟨a₁, b₁, c₁, d₁, e₁, f₁⟩ := h₁
  obtain ⟨a₂, b₂, c₂, d₂, e₂, f₂⟩ := h₂
  exact ⟨a₂.trans a₁, b₂.trans b₁, c₂.trans c₁, d₂.trans d₁,
    fun i => (e₂ i).trans (e₁ i), fun i => (f₂ i).trans (f₁ i)⟩

theorem lineMatchesFilter_spec (s : Widget) (t : Text) (i : Nat)
    (ht : t = s.lines.getD i []) :
    (lineMatchesFilter s t i).1 = matchesRT s i ∧
    RTpres s (lineMatchesFilter s t i).2 := by
  simp only [lineMatchesFilter, matchesRT]
  split
  · exact ⟨by trivial, RTpres_refl s⟩
  · cases hl : alookup s.filterCache (i + s.lineOffset) with
    | some b => simp only [hl]; exact ⟨by trivial, RTpres_refl s⟩
    | none =>
      simp only [hl]
      subst ht
      refine ⟨rfl, rfl, rfl, rfl, rfl, fun i' => rfl, fun i' => ?_⟩
      simp only [matchesRT]
      split
      · rfl
      · simp only [alookup_cons]
        by_cases hii : i = i'
        · subst hii
          rw [if_pos rfl, hl]
        · rw [if_neg (by omega)]

theorem getWrappedLines_spec (s : Widget) (t : Text) (i : Nat)
    (ht : t = s.lines.getD i []) :
    (getWrappedLines s t i).1 = wrappedRT s i ∧
    RTpres s (getWrappedLines s t i).2 := by
  simp only [getWrappedLines, wrappedRT]
  subst ht
  split
  · exact ⟨by trivial, RTpres_refl s⟩
  · cases hl : alookup s.wrappedCache (i + s.lineOffset, availableWidth s) with
    | some v => simp only [hl]; exact ⟨by trivial, RTpres_refl s⟩
    | none =>
      simp only [hl]
      refine ⟨by trivial, rfl, rfl, rfl, rfl, fun i' => ?_, fun i' => rfl⟩
      simp only [wrappedRT, availableWidth]
      split
      · rfl
      · simp only [alookup_cons]
        by_cases hii : i = i'
        · subst hii
          rw [if_pos rfl]
          simp only [availableWidth] at hl
          rw [hl]
        · rw [if_neg ?_]
          intro hcontr
          rw [Prod.mk.injEq] at hcontr
          omega

theorem getDisplayLineCount_spec (s : Widget) (i : Nat) (hi : i < s.lines.length) :
    (getDisplayLineCount s i).1 = countRT s i ∧
    RTpres s (getDisplayLineCount s i).2 := by
  simp only [getDisplayLineCount, countRT]
  rw [if_pos hi]
  split
  · exact ⟨by trivial, RTpres_refl s⟩
  · obtain ⟨hv, hp⟩ := getWrappedLines_spec s (s.lines.getD i []) i rfl
    exact ⟨by rw [hv], hp⟩

theorem matchesRT_congr {s s' : Widget} (h : RTpres s s') (i : Nat) :
    matchesRT s' i = matchesRT s i := h.2.2.2.2.2 i

theorem wrappedRT_congr {s s' : Widget} (h : RTpres s s') (i : Nat) :
    wrappedRT s' i = wrappedRT s i := h.2.2.2.2.1 i

theorem countRT_congr {s s' : Widget} (h : RTpres s s') (i : Nat) :
    countRT s' i = countRT s i := by
  rw [countRT, countRT, h.1, wrappedRT_congr h]

theorem prefixRT_congr {s s' : Widget} (h : RTpres s s') :
    ∀ (idxs : List Nat) (acc : Nat), prefixRT s' idxs acc = prefixRT s idxs acc := by
  intro idxs
  induction idxs with
  | nil => intro acc; rfl
  | cons i rest ih =>
    intro acc
    rw [prefixRT, prefixRT, matchesRT_congr h, countRT_congr h]
    split <;> exact ih _

theorem totalRT_congr {s s' : Widget} (h : RTpres s s') : totalRT s' = totalRT s := by
  rw [totalRT, totalRT, h.1, prefixRT_congr h]

theorem filterCountGo_spec :
    ∀ (idxs : List Nat) (s : Widget) (acc : Nat),
      (∀ i ∈ idxs, i < s.lines.length) →
      (filterCountGo s idxs acc).1 = prefixRT s idxs acc ∧
      RTpres s (filterCountGo s idxs acc).2 := by
  intro idxs
  induction idxs with
  | nil => intro s acc _; exact ⟨rfl, RTpres_refl s⟩
  | cons i rest ih =>
    intro s acc hin
    rw [filterCountGo, prefixRT]
    obtain ⟨hm, hmp⟩ := lineMatchesFilter_spec s (s.lines.getD i []) i rfl
    rw [hm]
    split
    · rename_i hmt
      obtain ⟨hc, hcp⟩ := getDisplayLineCount_spec (lineMatchesFilter s (s.lines.getD i []) i).2 i
        (by rw [hmp.1]; exact hin i (by simp))
      have hpres : RTpres s (getDisplayLineCount (lineMatchesFilter s (s.lines.getD i []) i).2 i).2 :=
        RTpres_trans hmp hcp
      obtain ⟨hv, hp⟩ := ih (getDisplayLineCount (lineMatchesFilter s (s.lines.getD i []) i).2 i).2
        (acc + (getDisplayLineCount (lineMatchesFilter s (s.lines.getD i []) i).2 i).1)
        (by intro j hj
            rw [hpres.1]
            exact hin j (by simp [hj]))
      refine ⟨?_, RTpres_trans hpres hp⟩
      rw [hv, prefixRT_congr hpres, hc, countRT_congr hmp]
    · rename_i hmt
      obtain ⟨hv, hp⟩ := ih (lineMatchesFilter s (s.lines.getD i []) i).2 acc
        (by intro j hj
            rw [hmp.1]
            exact hin j (by simp [hj]))
      refine ⟨?_, RTpres_trans hmp hp⟩
      rw [hv, prefixRT_congr hmp]

/-! ### Frame lemmas: which fields each operation can touch -/

theorem lineMatchesFilter_frame (s : Widget) (t : Text) (i : Nat) :
    ∃ fc, (lineMatchesFilter s t i).2 = { s with filterCache := fc } := by
  simp only [lineMatchesFilter]
  split
  · exact ⟨s.filterCache, rfl⟩
  · split
    · exact ⟨s.filterCache, rfl⟩
    · exact ⟨_, rfl⟩

theorem getWrappedLines_frame (s : Widget) (t : Text) (i : Nat) :
    ∃ wc, (getWrappedLines s t i).2 = { s with wrappedCache := wc } := by
  simp only [getWrappedLines]
  split
  · exact ⟨s.wrappedCache, rfl⟩
  · split
    · exact ⟨s.wrappedCache, rfl⟩
    · exact ⟨_, rfl⟩

theorem getDisplayLineCount_frame (s : Widget) (i : Nat) :
    ∃ wc, (getDisplayLineCount s i).2 = { s with wrappedCache := wc } := by
  simp only [getDisplayLineCount]
  split
  · split
    · exact ⟨s.wrappedCache, rfl⟩
    · exact getWrappedLines_frame s _ i
  · exact ⟨s.wrappedCache, rfl⟩

theorem filterCountGo_frame :
    ∀ (idxs : List Nat) (s : Widget) (acc : Nat),
      ∃ fc wc, (filterCountGo s idxs acc).2 =
        { s with filterCache := fc, wrappedCache := wc } := by
  intro idxs
  induction idxs with
  | nil => intro s acc; exact ⟨s.filterCache, s.wrappedCache, rfl⟩
  | cons i rest ih =>
    intro s acc
    rw [filterCountGo]
    obtain ⟨fc₁, hm⟩ := lineMatchesFilter_frame s (s.lines.getD i []) i
    split
    · obtain ⟨wc₁, hc⟩ := getDisplayLineCount_frame (lineMatchesFilter s (s.lines.getD i []) i).2 i
      obtain ⟨fc₂, wc₂, hrec⟩ := ih (getDisplayLineCount (lineMatchesFilter s (s.lines.getD i []) i).2 i).2
        (acc + (getDisplayLineCount (lineMatchesFilter s (s.lines.getD i []) i).2 i).1)
      refine ⟨fc₂, wc₂, ?_⟩
      rw [hrec, hc, hm]
    · obtain ⟨fc₂, wc₂, hrec⟩ := ih (lineMatchesFilter s (s.lines.getD i []) i).2 acc
      refine ⟨fc₂, wc₂, ?_⟩
      rw [hrec, hm]

theorem getTotalDisplayLines_frame (s : Widget) :
    ∃ fc wc ct dt, (getTotalDisplayLines s).2 =
      { s with filterCache := fc, wrappedCache := wc,
               cachedTotalDisplayLines := ct, totalDisplayLinesDirty := dt } := by
  rw [getTotalDisplayLines]
  split
  · exact ⟨s.filterCache, s.wrappedCache, s.cachedTotalDisplayLines, s.totalDisplayLinesDirty, rfl⟩
  · obtain ⟨fc, wc, h⟩ := filterCountGo_frame (List.range s.lines.length) s 0
    refine ⟨fc, wc, (filterCountGo s (List.range s.lines.length) 0).1, false, ?_⟩
    simp only [h]

theorem updateScrollbars_frame (s : Widget) :
    ∃ fc wc ct dt, updateScrollbars s =
      { s with filterCache := fc, wrappedCache := wc,
               cachedTotalDisplayLines := ct, totalDisplayLinesDirty := dt } :=
  getTotalDisplayLines_frame s

theorem updateScrollbars_lines (s : Widget) : (updateScrollbars s).lines = s.lines := by
  obtain ⟨fc, wc, ct, dt, h⟩ := updateScrollbars_frame s
  rw [h]

theorem updateScrollbars_ts (s : Widget) :
    (updateScrollbars s).lineTimestamps = s.lineTimestamps := by
  obtain ⟨fc, wc, ct, dt, h⟩ := updateScrollbars_frame s
  rw [h]

theorem updateScrollbars_raw (s : Widget) : (updateScrollbars s).rawBytes = s.rawBytes := by
  obtain ⟨fc, wc, ct, dt, h⟩ := updateScrollbars_frame s
  rw [h]

theorem updateScrollbars_maxLines (s : Widget) :
    (updateScrollbars s).maxLines = s.maxLines := by
  obtain ⟨fc, wc, ct, dt, h⟩ := updateScrollbars_frame s
  rw [h]

theorem updateScrollbars_lineOffset (s : Widget) :
    (updateScrollbars s).lineOffset = s.lineOffset := by
  obtain ⟨fc, wc, ct, dt, h⟩ := updateScrollbars_frame s
  rw [h]

theorem updateScrollbars_currentLineIndex (s : Widget) :
    (updateScrollbars s).currentLineIndex = s.currentLineIndex := by
  obtain ⟨fc, wc, ct, dt, h⟩ := updateScrollbars_frame s
  rw [h]

theorem updateMetrics_frame (s : Widget) :
    ∃ tw lw wc caw fc ct dt, updateMetrics s =
      { s with timestampWidth := tw, lineNumAreaWidth := lw, wrappedCache := wc,
               cachedAvailableWidth := caw, filterCache := fc,
               cachedTotalDisplayLines := ct, totalDisplayLinesDirty := dt } := by
  simp only [updateMetrics]
  obtain ⟨fc, wc, ct, dt, h⟩ := updateScrollbars_frame _
  rw [h]
  exact ⟨_, _, wc, _, fc, ct, dt, rfl⟩

theorem updateMetrics_lines (s : Widget) : (updateMetrics s).lines = s.lines := by
  obtain ⟨tw, lw, wc, caw, fc, ct, dt, h⟩ := updateMetrics_frame s
  rw [h]

theorem updateMetrics_ts (s : Widget) :
    (updateMetrics s).lineTimestamps = s.lineTimestamps := by
  obtain ⟨tw, lw, wc, caw, fc, ct, dt, h⟩ := updateMetrics_frame s
  rw [h]

theorem updateMetrics_raw (s : Widget) : (updateMetrics s).rawBytes = s.rawBytes := by
  obtain ⟨tw, lw, wc, caw, fc, ct, dt, h⟩ := updateMetrics_frame s
  rw [h]

theorem updateMetrics_maxLines (s : Widget) :
    (updateMetrics s).maxLines = s.maxLines := by
  obtain ⟨tw, lw, wc, caw, fc, ct, dt, h⟩ := updateMetrics_frame s
  rw [h]

theorem updateLineNumWidthDynamic_lines (s : Widget) :
    (updateLineNumWidthDynamic s).lines = s.lines := by
  simp only [updateLineNumWidthDynamic]
  split
  · rfl
  · split
    · exact updateMetrics_lines s
    · rfl

theorem updateLineNumWidthDynamic_ts (s : Widget) :
    (updateLineNumWidthDynamic s).lineTimestamps = s.lineTimestamps := by
  simp only [updateLineNumWidthDynamic]
  split
  · rfl
  · split
    · exact updateMetrics_ts s
    · rfl

theorem updateLineNumWidthDynamic_raw (s : Widget) :
    (updateLineNumWidthDynamic s).rawBytes = s.rawBytes := by
  simp only [updateLineNumWidthDynamic]
  split
  · rfl
  · split
    · exact updateMetrics_raw s
    · rfl

theorem updateLineNumWidthDynamic_maxLines (s : Widget) :
    (updateLineNumWidthDynamic s).maxLines = s.maxLines := by
  simp only [updateLineNumWidthDynamic]
  split
  · rfl
  · split
    · exact updateMetrics_maxLines s
    · rfl

theorem scheduleUpdate_frame (s : Widget) :
    ∃ p, scheduleUpdate s = { s with pendingUpdate := p } := by
  rw [scheduleUpdate]
  split
  · exact ⟨true, rfl⟩
  · exact ⟨s.pendingUpdate, rfl⟩

/-! ### Total display rows: cache behaviour -/

/-- The cached total is dirty or correct; every modeled path re-establishes
this after touching anything it depends on. -/
def goodTotal (s : Widget) : Prop :=
  s.totalDisplayLinesDirty = true ∨ s.cachedTotalDisplayLines = totalRT s

theorem getTotalDisplayLines_clean (s : Widget) (h : s.totalDisplayLinesDirty = false) :
    getTotalDisplayLines s = (s.cachedTotalDisplayLines, s) := by
  rw [getTotalDisplayLines, if_pos (by rw [h]; simp)]

theorem getTotalDisplayLines_dirty (s : Widget) (h : s.totalDisplayLinesDirty = true) :
    (getTotalDisplayLines s).1 = totalRT s ∧
    RTpres s (getTotalDisplayLines s).2 ∧
    (getTotalDisplayLines s).2.cachedTotalDisplayLines = totalRT (getTotalDisplayLines s).2 ∧
    (getTotalDisplayLines s).2.totalDisplayLinesDirty = false := by
  rw [getTotalDisplayLines, if_neg (by rw [h]; simp)]
  obtain ⟨hv, hp⟩ := filterCountGo_spec (List.range s.lines.length) s 0
    (by intro i hi; simpa using hi)
  have hpres : RTpres s (filterCountGo s (List.range s.lines.length) 0).2 := hp
  have hpres' : RTpres (filterCountGo s (List.range s.lines.length) 0).2
      { (filterCountGo s (List.range s.lines.length) 0).2 with
        cachedTotalDisplayLines := (filterCountGo s (List.range s.lines.length) 0).1,
        totalDisplayLinesDirty := false } :=
    ⟨rfl, rfl, rfl, rfl, fun _ => rfl, fun _ => rfl⟩
  refine ⟨by rw [hv]; rw [totalRT], RTpres_trans hpres hpres', ?_, rfl⟩
  show (filterCountGo s (List.range s.lines.length) 0).1 = _
  rw [hv]
  rw [totalRT_congr (RTpres_trans hpres hpres')]
  rw [totalRT]

theorem getTotal_val (s : Widget) (h : goodTotal s) :
    (getTotalDisplayLines s).1 = totalRT s := by
  cases hd : s.totalDisplayLinesDirty with
  | true => exact (getTotalDisplayLines_dirty s hd).1
  | false =>
    rw [getTotalDisplayLines_clean s hd]
    rcases h with h | h
    · rw [hd] at h; simp at h
    · exact h

theorem updateScrollbars_good (s : Widget) (h : goodTotal s) :
    goodTotal (updateScrollbars s) := by
  cases hd : s.totalDisplayLinesDirty with
  | true =>
    obtain ⟨_, _, hc, _⟩ := getTotalDisplayLines_dirty s hd
    exact Or.inr hc
  | false =>
    rw [updateScrollbars, getTotalDisplayLines_clean s hd]
    exact h

theorem updateScrollbars_good_of_dirty (s : Widget) (h : s.totalDisplayLinesDirty = true) :
    goodTotal (updateScrollbars s) :=
  updateScrollbars_good s (Or.inl h)

/-! ### Operation-level lemmas -/

theorem scheduleUpdate_lines (s : Widget) : (scheduleUpdate s).lines = s.lines := by
  obtain ⟨p, h⟩ := scheduleUpdate_frame s; rw [h]

theorem scheduleUpdate_ts (s : Widget) :
    (scheduleUpdate s).lineTimestamps = s.lineTimestamps := by
  obtain ⟨p, h⟩ := scheduleUpdate_frame s; rw [h]

theorem scheduleUpdate_raw (s : Widget) : (scheduleUpdate s).rawBytes = s.rawBytes := by
  obtain ⟨p, h⟩ := scheduleUpdate_frame s; rw [h]

theorem scheduleUpdate_maxLines (s : Widget) : (scheduleUpdate s).maxLines = s.maxLines := by
  obtain ⟨p, h⟩ := scheduleUpdate_frame s; rw [h]

/-- The delete count of a triggered trim. -/
def trimDeleteCount (s : Widget) : Nat :=
  s.lines.length - s.maxLines + trimBuffer s.maxLines

theorem trimLinesIfNeeded_noop (s : Widget) (h : s.lines.length ≤ s.maxLines) :
    trimLinesIfNeeded s = s := by
  rw [trimLinesIfNeeded, if_pos h]

theorem trimLinesIfNeeded_spec (s : Widget) (h : s.maxLines < s.lines.length) :
    (trimLinesIfNeeded s).lines = s.lines.drop (trimDeleteCount s) ∧
    (trimLinesIfNeeded s).lineTimestamps = s.lineTimestamps.drop (trimDeleteCount s) ∧
    (trimLinesIfNeeded s).rawBytes = s.rawBytes ∧
    (trimLinesIfNeeded s).maxLines = s.maxLines ∧
    (trimLinesIfNeeded s).lineOffset = s.lineOffset + trimDeleteCount s := by
  rw [trimLinesIfNeeded, if_neg (by omega)]
  simp only
  refine ⟨?_, ?_, ?_, ?_, ?_⟩
  · rw [updateScrollbars_lines]; rfl
  · rw [updateScrollbars_ts]; rfl
  · rw [updateScrollbars_raw]
  · rw [updateScrollbars_maxLines]
  · rw [updateScrollbars_lineOffset]; rfl

theorem trimLinesIfNeeded_raw (s : Widget) :
    (trimLinesIfNeeded s).rawBytes = s.rawBytes := by
  by_cases h : s.lines.length ≤ s.maxLines
  · rw [trimLinesIfNeeded_noop s h]
  · exact (trimLinesIfNeeded_spec s (by omega)).2.2.1

/-- Lines and timestamps produced by the decode/merge step of
`append_raw_bytes`, before the trim check. -/
theorem appendDecodeStep_raw (s : Widget) (data : List Nat) (now : Nat) :
    (appendDecodeStep s data now).rawBytes = s.rawBytes ++ data := rfl

theorem appendDecodeStep_maxLines (s : Widget) (data : List Nat) (now : Nat) :
    (appendDecodeStep s data now).maxLines = s.maxLines := rfl

theorem invalidateTotalCache_raw (s : Widget) :
    (invalidateTotalCache s).rawBytes = s.rawBytes := rfl

theorem invalidateTotalCache_lines (s : Widget) :
    (invalidateTotalCache s).lines = s.lines := rfl

theorem invalidateTotalCache_ts (s : Widget) :
    (invalidateTotalCache s).lineTimestamps = s.lineTimestamps := rfl

theorem invalidateTotalCache_maxLines (s : Widget) :
    (invalidateTotalCache s).maxLines = s.maxLines := rfl

theorem trimLinesIfNeeded_maxLines (s : Widget) :
    (trimLinesIfNeeded s).maxLines = s.maxLines := by
  by_cases h : s.lines.length ≤ s.maxLines
  · rw [trimLinesIfNeeded_noop s h]
  · exact (trimLinesIfNeeded_spec s (by omega)).2.2.2.1

theorem appendRawBytes_raw (s : Widget) (data : List Nat) (now : Nat) :
    (appendRawBytes s data now).rawBytes = s.rawBytes ++ data := by
  by_cases hd : data = []
  · subst hd
    rw [appendRawBytes]
    simp
  · rw [appendRawBytes, if_neg hd]
    simp only
    split
    · split
      · rw [updateLineNumWidthDynamic_raw, invalidateTotalCache_raw,
          trimLinesIfNeeded_raw, appendDecodeStep_raw]
      · rw [scheduleUpdate_raw, invalidateTotalCache_raw,
          trimLinesIfNeeded_raw, appendDecodeStep_raw]
    · rw [scheduleUpdate_raw, invalidateTotalCache_raw, appendDecodeStep_raw]

theorem appendRawBytes_maxLines (s : Widget) (data : List Nat) (now : Nat) :
    (appendRawBytes s data now).maxLines = s.maxLines := by
  by_cases hd : data = []
  · subst hd
    rw [appendRawBytes]
    simp
  · rw [appendRawBytes, if_neg hd]
    simp only
    split
    · split
      · rw [updateLineNumWidthDynamic_maxLines, invalidateTotalCache_maxLines,
          trimLinesIfNeeded_maxLines, appendDecodeStep_maxLines]
      · rw [scheduleUpdate_maxLines, invalidateTotalCache_maxLines,
          trimLinesIfNeeded_maxLines, appendDecodeStep_maxLines]
    · rw [scheduleUpdate_maxLines, invalidateTotalCache_maxLines, appendDecodeStep_maxLines]

theorem setMaxLines_raw (s : Widget) (m : Nat) :
    (setMaxLines s m).rawBytes = s.rawBytes := by
  rw [setMaxLines]
  rw [trimLinesIfNeeded_raw]

/-! ### Claim C4: greedy wrapping -/

/-- C4: for every line text and every positive available width, the wrap
performs greedy fill — every segment either fits the available width or is a
single force-placed character wider than it, adjacent segments are maximal
(the next segment's first character would overflow the previous segment),
the empty line wraps to `[""]`, and every line occupies at least one display
row. -/
theorem wrap_greedy_fill (cw : Char → Nat) (aw : Nat) (t : Text) (haw : 0 < aw) :
    pyWrap cw aw [] = [[]] ∧
    1 ≤ (pyWrap cw aw t).length ∧
    (∀ seg ∈ pyWrap cw aw t, segOk cw aw seg) ∧
    List.Chain' (boundaryOk cw aw) (pyWrap cw aw t) :=
  ⟨pyWrap_empty cw aw, pyWrap_length_pos cw aw t, pyWrap_segOk cw aw t,
    pyWrap_chain cw aw t⟩

/-- Witness for C4 at the fixture font and a 30 px width. -/
theorem wrap_greedy_fill_witness :
    0 < 30 ∧
    (pyWrap cw10 30 [] = [[]] ∧
     1 ≤ (pyWrap cw10 30 (txt "aaaa")).length ∧
     (∀ seg ∈ pyWrap cw10 30 (txt "aaaa"), segOk cw10 30 seg) ∧
     List.Chain' (boundaryOk cw10 30) (pyWrap cw10 30 (txt "aaaa"))) :=
  ⟨by decide, wrap_greedy_fill cw10 30 (txt "aaaa") (by decide)⟩

/-! ### Claim C10: wrapping is lossless -/

/-- C10: for every line text and every positive available width, the
concatenation of the wrap segments, in order, equals the original text. -/
theorem wrap_lossless (cw : Char → Nat) (aw : Nat) (t : Text) (haw : 0 < aw) :
    (pyWrap cw aw t).flatten = t :=
  pyWrap_flatten cw aw t

/-- Witness for C10 at the fixture font. -/
theorem wrap_lossless_witness :
    0 < 30 ∧ (pyWrap cw10 30 (txt "abcdef")).flatten = txt "abcdef" :=
  ⟨by decide, wrap_lossless cw10 30 (txt "abcdef") (by decide)⟩

/-! ### Claim C7: `goto_line` out of range -/

/-- C7 counterexample: on a 2-line store, `goto_line(5)` does not clamp to
the last valid line — it returns `False` and leaves the state (in
particular the current line index) untouched. -/
theorem gotoLine_no_clamp_counterexample :
    (gotoLine cexC7 5).1 = false ∧
    (gotoLine cexC7 5).2 = cexC7 ∧
    cexC7.lines.length = 2 ∧
    (gotoLine cexC7 5).2.currentLineIndex ≠ ((cexC7.lines.length : Int) - 1) := by
  refine ⟨rfl, rfl, by decide, by decide⟩

/-- C7 amended: for every line number beyond the line count (or below 1),
`goto_line` neither raises nor navigates: it returns `False` with the state
unchanged. -/
theorem gotoLine_out_of_range (s : Widget) (n : Int)
    (h : n - 1 < 0 ∨ (s.lines.length : Int) ≤ n - 1) :
    gotoLine s n = (false, s) := by
  rw [gotoLine, if_neg (by omega)]

/-- Witness for the amended C7 at the 2-line fixture. -/
theorem gotoLine_out_of_range_witness :
    ((5 : Int) - 1 < 0 ∨ (cexC7.lines.length : Int) ≤ (5 : Int) - 1) ∧
    gotoLine cexC7 5 = (false, cexC7) :=
  ⟨by decide, gotoLine_out_of_range cexC7 5 (by decide)⟩

/-! ### Claim C8: the raw log is never trimmed -/

theorem clearWidget_raw (s : Widget) : (clearWidget s).rawBytes = [] := by
  rw [clearWidget]
  rw [updateScrollbars_raw, updateMetrics_raw]
  rfl

/-- C8: over any sequence of appends and `set_max_lines` calls (hence any
interleaved trims), the raw log grows by exactly the appended byte count;
from a cleared widget its length is exactly the cumulative number of bytes
ever appended. -/
theorem rawLog_cumulative : ∀ (ops : List LogOp) (s : Widget),
    (applyLogOps s ops).rawBytes.length = s.rawBytes.length + appendedBytes ops ∧
    (applyLogOps (clearWidget s) ops).rawBytes.length = appendedBytes ops := by
  have main : ∀ (ops : List LogOp) (s : Widget),
      (applyLogOps s ops).rawBytes.length = s.rawBytes.length + appendedBytes ops := by
    intro ops
    induction ops with
    | nil => intro s; simp [applyLogOps, appendedBytes]
    | cons op rest ih =>
      intro s
      cases op with
      | append data now =>
        rw [applyLogOps, appendedBytes]
        rw [ih (applyLogOp s (LogOp.append data now))]
        show (appendRawBytes s data now).rawBytes.length + _ = _
        rw [appendRawBytes_raw]
        simp
        omega
      | setMax m =>
        rw [applyLogOps, appendedBytes]
        rw [ih (applyLogOp s (LogOp.setMax m))]
        show (setMaxLines s m).rawBytes.length + _ = _
        rw [setMaxLines_raw]
  intro ops s
  refine ⟨main ops s, ?_⟩
  rw [main ops (clearWidget s), clearWidget_raw]
  simp

/-! ### Claim C9: one timestamp per line -/

theorem mergeLines_len (lines : List Text) (ts : List Nat) (b : Bool)
    (segs : List Text) (newText : Text) (now : Nat) (h : ts.length = lines.length) :
    (mergeLines lines ts b segs newText now).2.length =
      (mergeLines lines ts b segs newText now).1.length := by
  rw [mergeLines]
  split
  · rename_i hA
    have hpos : 0 < lines.length := List.length_pos.2 hA.2
    split
    · simp only
      split
      · simp only [List.length_append, List.length_dropLast, List.length_replicate,
          List.length_cons, List.length_nil, List.length_tail]
        omega
      · simp only [List.length_append, List.length_dropLast, List.length_cons,
          List.length_nil]
        omega
    · split
      · simp only [List.length_append, List.length_dropLast, List.length_cons,
          List.length_nil]
        omega
      · exact h
  · split
    · simp only [List.length_append, List.length_replicate]
      omega
    · split
      · simp only [List.length_append, List.length_cons, List.length_nil]
        omega
      · exact h

instance (s : Widget) : Decidable (tsLinesEq s) := by
  unfold tsLinesEq
  infer_instance

theorem appendDecodeStep_tsLinesEq (s : Widget) (data : List Nat) (now : Nat)
    (h : tsLinesEq s) : tsLinesEq (appendDecodeStep s data now) := by
  rw [tsLinesEq] at h ⊢
  simp only [appendDecodeStep]
  generalize (if s.rawBytes ≠ [] ∧ s.rawBytes.getLast? ≠ some 10 then false else true) = b
  have hm := mergeLines_len s.lines s.lineTimestamps b
    (pySplitlines (s.decode data)) (s.decode data) now h
  split
  · simp only [List.length_append, List.length_replicate]
    omega
  · exact hm

theorem trimLinesIfNeeded_tsLinesEq (s : Widget) (h : tsLinesEq s) :
    tsLinesEq (trimLinesIfNeeded s) := by
  by_cases hc : s.lines.length ≤ s.maxLines
  · rw [trimLinesIfNeeded_noop s hc]
    exact h
  · obtain ⟨hl, ht, _, _, _⟩ := trimLinesIfNeeded_spec s (by omega)
    rw [tsLinesEq] at h ⊢
    rw [hl, ht]
    simp only [List.length_drop]
    omega

theorem clearWidget_lines (s : Widget) : (clearWidget s).lines = [] := by
  rw [clearWidget]
  rw [updateScrollbars_lines, updateMetrics_lines]
  rfl

theorem clearWidget_ts (s : Widget) : (clearWidget s).lineTimestamps = [] := by
  rw [clearWidget]
  rw [updateScrollbars_ts, updateMetrics_ts]
  rfl

theorem clearWidget_tsLinesEq (s : Widget) : tsLinesEq (clearWidget s) := by
  rw [tsLinesEq, clearWidget_lines, clearWidget_ts]
  simp

theorem clearWrappedCache_lines (s : Widget) : (clearWrappedCache s).lines = s.lines := rfl

theorem clearWrappedCache_ts (s : Widget) :
    (clearWrappedCache s).lineTimestamps = s.lineTimestamps := rfl

theorem clearWrappedCache_raw (s : Widget) : (clearWrappedCache s).rawBytes = s.rawBytes := rfl

theorem setContent_tsLinesEq (s : Widget) (text : Text) (now : Nat) :
    tsLinesEq (setContent s text now) := by
  rw [tsLinesEq, setContent]
  rw [updateScrollbars_lines, updateScrollbars_ts, updateMetrics_lines, updateMetrics_ts,
    clearWrappedCache_lines, clearWrappedCache_ts]
  show (List.replicate (pySplitlines text).length now).length = _
  simp

theorem appendRawBytes_tsLinesEq (s : Widget) (data : List Nat) (now : Nat)
    (h : tsLinesEq s) : tsLinesEq (appendRawBytes s data now) := by
  by_cases hd : data = []
  · subst hd
    rw [appendRawBytes]
    simpa using h
  · rw [appendRawBytes, if_neg hd]
    simp only
    have h₁ := appendDecodeStep_tsLinesEq s data now h
    split
    · split
      · rw [tsLinesEq, updateLineNumWidthDynamic_lines, updateLineNumWidthDynamic_ts,
          invalidateTotalCache_lines, invalidateTotalCache_ts]
        exact trimLinesIfNeeded_tsLinesEq _ h₁
      · rw [tsLinesEq, scheduleUpdate_lines, scheduleUpdate_ts,
          invalidateTotalCache_lines, invalidateTotalCache_ts]
        exact trimLinesIfNeeded_tsLinesEq _ h₁
    · rw [tsLinesEq, scheduleUpdate_lines, scheduleUpdate_ts,
        invalidateTotalCache_lines, invalidateTotalCache_ts]
      exact h₁

/-- C9: starting from any state where each line has exactly one timestamp,
every public operation — `append_raw_bytes`, a trim, `clear`, `set_content`
— leaves the timestamp list and the line list of equal length. -/
theorem ts_lines_length_invariant (s : Widget) (data : List Nat) (now : Nat)
    (text : Text) (h : tsLinesEq s) :
    tsLinesEq (appendRawBytes s data now) ∧
    tsLinesEq (trimLinesIfNeeded s) ∧
    tsLinesEq (clearWidget s) ∧
    tsLinesEq (setContent s text now) :=
  ⟨appendRawBytes_tsLinesEq s data now h, trimLinesIfNeeded_tsLinesEq s h,
    clearWidget_tsLinesEq s, setContent_tsLinesEq s text now⟩

/-- Witness for C9 at the fixture widget. -/
theorem ts_lines_length_invariant_witness :
    tsLinesEq fixW0 ∧
    (tsLinesEq (appendRawBytes fixW0 (bytesOf "hi\n") 3) ∧
     tsLinesEq (trimLinesIfNeeded fixW0) ∧
     tsLinesEq (clearWidget fixW0) ∧
     tsLinesEq (setContent fixW0 (txt "a\nb") 3)) :=
  ⟨by decide, ts_lines_length_invariant fixW0 (bytesOf "hi\n") 3 (txt "a\nb") (by decide)⟩

/-! ### Claim C2: the trim target -/

/-- C2 counterexample: with `max_lines = 200` (buffer = 100) and 220 lines,
an append of one more line crosses the `> max_lines * 1.1` threshold; the
claim says the trim returns the store to `max_lines + buffer = 300` lines,
but the code deletes `excess + buffer` lines and leaves
`max_lines - buffer = 100`. -/
theorem trim_target_counterexample :
    overTrimThreshold (appendDecodeStep cexC2 (bytesOf "b\n") 9).lines.length
      cexC2.maxLines ∧
    cexC2.maxLines + trimBuffer cexC2.maxLines = 300 ∧
    (appendRawBytes cexC2 (bytesOf "b\n") 9).lines.length = 100 ∧
    (appendRawBytes cexC2 (bytesOf "b\n") 9).lines.length ≠
      cexC2.maxLines + trimBuffer cexC2.maxLines := by
  refine ⟨by decide, by decide, by decide, by decide⟩

/-- C2 amended: whenever an append pushes the line count past
`max_lines * 1.1`, the trim runs in one batch and evicts only from the
front — the survivors are exactly the `drop` of the delete count, a suffix
of the merged lines (the most recent ones) — and the resulting length is
`max_lines - buffer` (truncated at zero), where
`buffer = max(max_lines / 10, 100)`; in particular it is at most
`max_lines + buffer`. -/
theorem append_trim_spec (s : Widget) (data : List Nat) (now : Nat)
    (hd : data ≠ [])
    (ht : overTrimThreshold (appendDecodeStep s data now).lines.length s.maxLines) :
    (appendRawBytes s data now).lines =
      (appendDecodeStep s data now).lines.drop
        ((appendDecodeStep s data now).lines.length - s.maxLines +
          trimBuffer s.maxLines) ∧
    (appendRawBytes s data now).lines <:+ (appendDecodeStep s data now).lines ∧
    (appendRawBytes s data now).lines.length = s.maxLines - trimBuffer s.maxLines ∧
    (appendRawBytes s data now).lines.length ≤ s.maxLines + trimBuffer s.maxLines := by
  have hml : (appendDecodeStep s data now).maxLines = s.maxLines := rfl
  have hlen : s.maxLines < (appendDecodeStep s data now).lines.length := by
    rw [overTrimThreshold] at ht
    omega
  obtain ⟨hl, _, _, _, _⟩ :=
    trimLinesIfNeeded_spec (appendDecodeStep s data now) (by rw [hml]; exact hlen)
  have hfin : (appendRawBytes s data now).lines =
      (trimLinesIfNeeded (appendDecodeStep s data now)).lines := by
    rw [appendRawBytes, if_neg hd]
    simp only
    rw [if_pos (by rw [hml]; exact ht)]
    split
    · rw [updateLineNumWidthDynamic_lines, invalidateTotalCache_lines]
    · rw [scheduleUpdate_lines, invalidateTotalCache_lines]
  have hdc : trimDeleteCount (appendDecodeStep s data now) =
      (appendDecodeStep s data now).lines.length - s.maxLines + trimBuffer s.maxLines := by
    rw [trimDeleteCount, hml]
  refine ⟨?_, ?_, ?_, ?_⟩
  · rw [hfin, hl, hdc]
  · rw [hfin, hl]
    exact List.drop_suffix _ _
  · rw [hfin, hl, hdc]
    simp only [List.length_drop]
    omega
  · rw [hfin, hl, hdc]
    simp only [List.length_drop]
    omega

/-- Witness for the amended C2 at the 220-line fixture. -/
theorem append_trim_spec_witness :
    (bytesOf "b\n" ≠ [] ∧
     overTrimThreshold (appendDecodeStep cexC2 (bytesOf "b\n") 9).lines.length
       cexC2.maxLines) ∧
    (appendRawBytes cexC2 (bytesOf "b\n") 9).lines.length =
      cexC2.maxLines - trimBuffer cexC2.maxLines :=
  ⟨⟨by decide, by decide⟩,
    (append_trim_spec cexC2 (bytesOf "b\n") 9 (by decide) (by decide)).2.2.1⟩

/-! ### Claim C3: appending onto an unterminated last line -/

/-- C3: when the store is non-empty and the previous raw byte is not a line
terminator, the first decoded segment of an append is concatenated onto the
current last line and the remaining segments become new lines (stated below
threshold, so no trim interferes); and the spec's scenario:
`append("line1\nline2\n")`, `append("line3")` give exactly 3 lines, and a
further `append(" more\n")` turns line 3 into `"line3 more"`, completed by
the trailing newline. -/
theorem append_concat_spec (s : Widget) (data : List Nat) (now : Nat) (b : Nat)
    (seg : Text) (rest : List Text)
    (hd : data ≠ [])
    (hlines : s.lines ≠ [])
    (hlast : s.rawBytes.getLast? = some b)
    (hb10 : b ≠ 10) (hb13 : b ≠ 13)
    (hsplit : pySplitlines (s.decode data) = seg :: rest)
    (hnt : ¬ overTrimThreshold (s.lines.length + rest.length) s.maxLines) :
    ((appendRawBytes s data now).lines =
      s.lines.dropLast ++ [(s.lines.getLast?.getD []) ++ seg] ++ rest) ∧
    c3s2.lines.length = 3 ∧
    c3s3.lines = [txt "line1", txt "line2", txt "line3 more"] ∧
    c3s3.rawBytes.getLast? = some 10 := by
  have hraw_ne : s.rawBytes ≠ [] := by
    intro h
    rw [h] at hlast
    simp at hlast
  have hne10 : s.rawBytes.getLast? ≠ some 10 := by
    rw [hlast]
    intro hc
    exact hb10 (by injection hc)
  have hcond : (if s.rawBytes ≠ [] ∧ s.rawBytes.getLast? ≠ some 10 then false else true)
      = false := if_pos ⟨hraw_ne, hne10⟩
  have hmerge : (mergeLines s.lines s.lineTimestamps false (seg :: rest)
      (s.decode data) now).1 =
      s.lines.dropLast ++ [(s.lines.getLast?.getD []) ++ seg] ++ rest := by
    rw [mergeLines, if_pos ⟨rfl, hlines⟩, if_pos (by simp)]
    simp only [List.headD_cons, List.tail_cons]
    split
    · rfl
    · rename_i hgt
      cases rest with
      | nil => simp
      | cons x xs =>
        exfalso
        simp [List.length_cons] at hgt
  have hlines1 : (appendDecodeStep s data now).lines =
      s.lines.dropLast ++ [(s.lines.getLast?.getD []) ++ seg] ++ rest := by
    simp only [appendDecodeStep, hsplit, hcond]
    exact hmerge
  have hlen1 : (appendDecodeStep s data now).lines.length =
      s.lines.length + rest.length := by
    rw [hlines1]
    have := List.length_pos.2 hlines
    simp only [List.length_append, List.length_dropLast, List.length_cons,
      List.length_nil]
    omega
  refine ⟨?_, by decide, by decide, by decide⟩
  rw [appendRawBytes, if_neg hd]
  simp only
  rw [if_neg (by
    show ¬ overTrimThreshold _ (appendDecodeStep s data now).maxLines
    rw [hlen1]
    exact hnt)]
  rw [scheduleUpdate_lines, invalidateTotalCache_lines]
  exact hlines1

/-- Witness for C3: the second scenario append satisfies the hypotheses of
the general statement (previous byte `'3'`, one decoded segment `" more"`). -/
theorem append_concat_spec_witness :
    (bytesOf " more\n" ≠ [] ∧ c3s2.lines ≠ [] ∧
     c3s2.rawBytes.getLast? = some 51 ∧ (51 : Nat) ≠ 10 ∧ (51 : Nat) ≠ 13 ∧
     pySplitlines (c3s2.decode (bytesOf " more\n")) = [txt " more"] ∧
     ¬ overTrimThreshold (c3s2.lines.length + ([] : List Text).length) c3s2.maxLines) ∧
    (appendRawBytes c3s2 (bytesOf " more\n") 7).lines =
      c3s2.lines.dropLast ++ [(c3s2.lines.getLast?.getD []) ++ txt " more"] ++ [] := by
  refine ⟨⟨by decide, by decide, by decide, by decide, by decide, by decide, by decide⟩, ?_⟩
  exact (append_concat_spec c3s2 (bytesOf " more\n") 7 51 (txt " more") []
    (by decide) (by decide) (by decide) (by decide) (by decide) (by decide) (by decide)).1

/-! ### Claim C6: appends leave existing wrap-cache entries alone -/

theorem alookup_filter_same {α β : Type} [DecidableEq α]
    (l : List (α × β)) (p : α × β → Bool) (k : α)
    (hp : ∀ v, p (k, v) = true) :
    alookup (l.filter p) k = alookup l k := by
  induction l with
  | nil => rfl
  | cons kv rest ih =>
    obtain ⟨k', v'⟩ := kv
    by_cases hk : k' = k
    · subst hk
      rw [List.filter_cons, if_pos (by simpa using hp v')]
      simp
    · rw [List.filter_cons]
      split
      · simp only [alookup_cons, if_neg hk]
        exact ih
      · rw [alookup_cons, if_neg hk]
        exact ih

theorem getWrappedLines_cache_mono (s : Widget) (t : Text) (i : Nat)
    (k : Nat × Nat) (v : List Text) (h : alookup s.wrappedCache k = some v) :
    alookup (getWrappedLines s t i).2.wrappedCache k = some v := by
  simp only [getWrappedLines]
  split
  · exact h
  · split
    · exact h
    · rename_i hmiss
      show alookup ((_, _) :: s.wrappedCache) k = some v
      rw [alookup_cons]
      split
      · rename_i hk
        rw [hk] at hmiss
        rw [hmiss] at h
        exact absurd h (by simp)
      · exact h

theorem lineMatchesFilter_wrappedCache (s : Widget) (t : Text) (i : Nat) :
    (lineMatchesFilter s t i).2.wrappedCache = s.wrappedCache := by
  obtain ⟨fc, h⟩ := lineMatchesFilter_frame s t i
  rw [h]

theorem getDisplayLineCount_cache_mono (s : Widget) (i : Nat)
    (k : Nat × Nat) (v : List Text) (h : alookup s.wrappedCache k = some v) :
    alookup (getDisplayLineCount s i).2.wrappedCache k = some v := by
  simp only [getDisplayLineCount]
  split
  · split
    · exact h
    · exact getWrappedLines_cache_mono s _ i k v h
  · exact h

theorem filterCountGo_cache_mono :
    ∀ (idxs : List Nat) (s : Widget) (acc : Nat) (k : Nat × Nat) (v : List Text),
      alookup s.wrappedCache k = some v →
      alookup (filterCountGo s idxs acc).2.wrappedCache k = some v := by
  intro idxs
  induction idxs with
  | nil => intro s acc k v h; exact h
  | cons i rest ih =>
    intro s acc k v h
    rw [filterCountGo]
    split
    · refine ih _ _ k v ?_
      refine getDisplayLineCount_cache_mono _ i k v ?_
      rw [lineMatchesFilter_wrappedCache]
      exact h
    · refine ih _ _ k v ?_
      rw [lineMatchesFilter_wrappedCache]
      exact h

theorem updateScrollbars_cache_mono (s : Widget) (k : Nat × Nat) (v : List Text)
    (h : alookup s.wrappedCache k = some v) :
    alookup (updateScrollbars s).wrappedCache k = some v := by
  rw [updateScrollbars, getTotalDisplayLines]
  split
  · exact h
  · show alookup (filterCountGo s (List.range s.lines.length) 0).2.wrappedCache k = some v
    exact filterCountGo_cache_mono _ s 0 k v h

theorem updateScrollbars_cachedAW (s : Widget) :
    (updateScrollbars s).cachedAvailableWidth = s.cachedAvailableWidth := by
  obtain ⟨fc, wc, ct, dt, h⟩ := updateScrollbars_frame s
  rw [h]

theorem updateScrollbars_viewportWidth (s : Widget) :
    (updateScrollbars s).viewportWidth = s.viewportWidth := by
  obtain ⟨fc, wc, ct, dt, h⟩ := updateScrollbars_frame s
  rw [h]

theorem updateScrollbars_lineNumAreaWidth (s : Widget) :
    (updateScrollbars s).lineNumAreaWidth = s.lineNumAreaWidth := by
  obtain ⟨fc, wc, ct, dt, h⟩ := updateScrollbars_frame s
  rw [h]

theorem availableWidth_updateScrollbars (s : Widget) :
    availableWidth (updateScrollbars s) = availableWidth s := by
  rw [availableWidth, availableWidth, updateScrollbars_viewportWidth,
    updateScrollbars_lineNumAreaWidth]

theorem trimLinesIfNeeded_cache_preserved (s : Widget) (idx w : Nat) (v : List Text)
    (hv : alookup s.wrappedCache (idx, w) = some v)
    (hidx : (trimLinesIfNeeded s).lineOffset ≤ idx) :
    alookup (trimLinesIfNeeded s).wrappedCache (idx, w) = some v := by
  by_cases h : s.lines.length ≤ s.maxLines
  · rw [trimLinesIfNeeded_noop s h]
    exact hv
  · have hoff : (trimLinesIfNeeded s).lineOffset = s.lineOffset + trimDeleteCount s :=
      (trimLinesIfNeeded_spec s (by omega)).2.2.2.2
    rw [hoff] at hidx
    rw [trimLinesIfNeeded, if_neg (by omega)]
    simp only
    refine updateScrollbars_cache_mono _ (idx, w) v ?_
    show alookup (s.wrappedCache.filter _) (idx, w) = some v
    rw [alookup_filter_same s.wrappedCache _ (idx, w) ?_]
    · exact hv
    · intro v'
      simp only [Bool.not_eq_true', decide_eq_false_iff_not]
      rw [trimDeleteCount] at hidx
      simp only [Bool.and_eq_true, decide_eq_true_eq, not_and, not_lt]
      omega

theorem trimLinesIfNeeded_cachedAW (s : Widget) :
    (trimLinesIfNeeded s).cachedAvailableWidth = s.cachedAvailableWidth := by
  by_cases h : s.lines.length ≤ s.maxLines
  · rw [trimLinesIfNeeded_noop s h]
  · rw [trimLinesIfNeeded, if_neg (by omega)]
    simp only
    rw [updateScrollbars_cachedAW]

theorem trimLinesIfNeeded_availableWidth (s : Widget) :
    availableWidth (trimLinesIfNeeded s) = availableWidth s := by
  by_cases h : s.lines.length ≤ s.maxLines
  · rw [trimLinesIfNeeded_noop s h]
  · rw [trimLinesIfNeeded, if_neg (by omega)]
    simp only
    rw [availableWidth_updateScrollbars]
    rfl

theorem scheduleUpdate_wrappedCache (s : Widget) :
    (scheduleUpdate s).wrappedCache = s.wrappedCache := by
  obtain ⟨p, h⟩ := scheduleUpdate_frame s; rw [h]

theorem scheduleUpdate_lineOffset (s : Widget) :
    (scheduleUpdate s).lineOffset = s.lineOffset := by
  obtain ⟨p, h⟩ := scheduleUpdate_frame s; rw [h]

theorem invalidateTotalCache_wrappedCache (s : Widget) :
    (invalidateTotalCache s).wrappedCache = s.wrappedCache := rfl

theorem invalidateTotalCache_lineOffset (s : Widget) :
    (invalidateTotalCache s).lineOffset = s.lineOffset := rfl

theorem invalidateTotalCache_cachedAW (s : Widget) :
    (invalidateTotalCache s).cachedAvailableWidth = s.cachedAvailableWidth := rfl

theorem updateMetrics_lineOffset (s : Widget) :
    (updateMetrics s).lineOffset = s.lineOffset := by
  obtain ⟨tw, lw, wc, caw, fc, ct, dt, h⟩ := updateMetrics_frame s
  rw [h]

/-- When the recorded available width already equals the width
`_update_metrics` is about to compute, the wrap cache is left alone and
only grows. -/
theorem updateMetrics_cache_preserved (s : Widget)
    (hsync2 : s.cachedAvailableWidth = some (availableWidth (updateMetrics s)))
    (k : Nat × Nat) (v : List Text) (h : alookup s.wrappedCache k = some v) :
    alookup (updateMetrics s).wrappedCache k = some v := by
  simp only [updateMetrics, availableWidth, updateScrollbars_viewportWidth,
    updateScrollbars_lineNumAreaWidth] at hsync2 ⊢
  refine updateScrollbars_cache_mono _ k v ?_
  rw [if_neg (by rw [hsync2]; simp)]
  exact h

/-- C6: an append never removes or rewrites a wrap-cache entry of a line
that survives it, as long as the append leaves the available width
unchanged (the recorded available width being in sync with the actual one,
as every `_update_metrics` leaves it): entries of evicted lines are purged
by the trim, new entries may be added, but every surviving line's entry is
still present with the same segments. -/
theorem append_preserves_wrap_cache (s : Widget) (data : List Nat) (now : Nat)
    (hsync : s.cachedAvailableWidth = some (availableWidth s))
    (hw : availableWidth (appendRawBytes s data now) = availableWidth s) :
    ∀ (idx w : Nat) (v : List Text),
      alookup s.wrappedCache (idx, w) = some v →
      (appendRawBytes s data now).lineOffset ≤ idx →
      idx - (appendRawBytes s data now).lineOffset <
        (appendRawBytes s data now).lines.length →
      alookup (appendRawBytes s data now).wrappedCache (idx, w) = some v := by
  intro idx w v hv hlo hup
  by_cases hd : data = []
  · rw [appendRawBytes, if_pos hd]
    exact hv
  · have hsplit : appendRawBytes s data now =
        if overTrimThreshold (appendDecodeStep s data now).lines.length
            (appendDecodeStep s data now).maxLines then
          if (trimLinesIfNeeded (appendDecodeStep s data now)).lines.length <
              (appendDecodeStep s data now).lines.length then
            updateLineNumWidthDynamic
              (invalidateTotalCache (trimLinesIfNeeded (appendDecodeStep s data now)))
          else
            scheduleUpdate
              (invalidateTotalCache (trimLinesIfNeeded (appendDecodeStep s data now)))
        else scheduleUpdate (invalidateTotalCache (appendDecodeStep s data now)) := by
      rw [appendRawBytes, if_neg hd]
    rw [hsplit] at hw hlo hup ⊢
    clear hsplit
    have hS1cache : (appendDecodeStep s data now).wrappedCache = s.wrappedCache := rfl
    have hS1off : (appendDecodeStep s data now).lineOffset = s.lineOffset := rfl
    have hS1caw : (appendDecodeStep s data now).cachedAvailableWidth =
      s.cachedAvailableWidth := rfl
    have hS1aw : availableWidth (appendDecodeStep s data now) = availableWidth s := rfl
    by_cases ht : overTrimThreshold (appendDecodeStep s data now).lines.length
        (appendDecodeStep s data now).maxLines
    · rw [if_pos ht] at hw hlo hup ⊢
      have hTcache : ∀ k vv, alookup (appendDecodeStep s data now).wrappedCache k = some vv →
          (trimLinesIfNeeded (appendDecodeStep s data now)).lineOffset ≤ k.1 →
          alookup (trimLinesIfNeeded (appendDecodeStep s data now)).wrappedCache k = some vv := by
        intro k vv hk hko
        obtain ⟨k1, k2⟩ := k
        exact trimLinesIfNeeded_cache_preserved (appendDecodeStep s data now) k1 k2 vv hk hko
      by_cases htr : (trimLinesIfNeeded (appendDecodeStep s data now)).lines.length <
          (appendDecodeStep s data now).lines.length
      · rw [if_pos htr] at hw hlo hup ⊢
        set T := trimLinesIfNeeded (appendDecodeStep s data now) with hT
        simp only [updateLineNumWidthDynamic] at hw hlo hup ⊢
        by_cases h1 : (invalidateTotalCache T).lines = []
        · rw [if_pos h1] at hw hlo hup ⊢
          rw [invalidateTotalCache_wrappedCache]
          refine hTcache (idx, w) v (by rw [hS1cache]; exact hv) ?_
          rw [invalidateTotalCache_lineOffset] at hlo
          exact hlo
        · rw [if_neg h1] at hw hlo hup ⊢
          by_cases h2 : ((((Nat.toDigits 10 (invalidateTotalCache T).lines.length).length) *
              charW (invalidateTotalCache T) : Int) >
              ((invalidateTotalCache T).lineNumAreaWidth : Int) -
                ((invalidateTotalCache T).timestampWidth : Int) - 20)
          · rw [if_pos h2] at hw hlo hup ⊢
            have hcaw : (invalidateTotalCache T).cachedAvailableWidth =
                some (availableWidth s) := by
              rw [invalidateTotalCache_cachedAW, hT, trimLinesIfNeeded_cachedAW, hS1caw, hsync]
            refine updateMetrics_cache_preserved (invalidateTotalCache T)
              (by rw [hcaw, hw]) (idx, w) v ?_
            rw [invalidateTotalCache_wrappedCache]
            refine hTcache (idx, w) v (by rw [hS1cache]; exact hv) ?_
            rw [updateMetrics_lineOffset, invalidateTotalCache_lineOffset] at hlo
            exact hlo
          · rw [if_neg h2] at hw hlo hup ⊢
            rw [invalidateTotalCache_wrappedCache]
            refine hTcache (idx, w) v (by rw [hS1cache]; exact hv) ?_
            rw [invalidateTotalCache_lineOffset] at hlo
            exact hlo
      · rw [if_neg htr] at hw hlo hup ⊢
        rw [scheduleUpdate_wrappedCache, invalidateTotalCache_wrappedCache]
        refine hTcache (idx, w) v (by rw [hS1cache]; exact hv) ?_
        rw [scheduleUpdate_lineOffset, invalidateTotalCache_lineOffset] at hlo
        exact hlo
    · rw [if_neg ht] at hw hlo hup ⊢
      rw [scheduleUpdate_wrappedCache, invalidateTotalCache_wrappedCache, hS1cache]
      exact hv

/-- Witness for C6: the cached wrap entry of line 0 survives a further
append unchanged. -/
theorem append_preserves_wrap_cache_witness :
    (witC6.cachedAvailableWidth = some (availableWidth witC6) ∧
     availableWidth (appendRawBytes witC6 (bytesOf "b\n") 2) = availableWidth witC6 ∧
     alookup witC6.wrappedCache (0, 130) = some [txt "aaaa"] ∧
     (appendRawBytes witC6 (bytesOf "b\n") 2).lineOffset ≤ 0 ∧
     0 - (appendRawBytes witC6 (bytesOf "b\n") 2).lineOffset <
       (appendRawBytes witC6 (bytesOf "b\n") 2).lines.length) ∧
    alookup (appendRawBytes witC6 (bytesOf "b\n") 2).wrappedCache (0, 130) =
      some [txt "aaaa"] :=
  ⟨⟨by decide, by decide, by decide, by decide, by decide⟩,
    append_preserves_wrap_cache witC6 (bytesOf "b\n") 2 (by decide) (by decide)
      0 130 [txt "aaaa"] (by decide) (by decide) (by decide)⟩

/-! ### Claim C1: the display-row total against its cache -/

instance (s : Widget) : Decidable (cachesFresh s) := by
  unfold cachesFresh
  exact Nat.decidableBallLT _ _

/-- With no stale per-line cache entries, the walk's read-through total is
the spec's independently recomputed total. -/
theorem totalRT_eq_spec (s : Widget) (hf : cachesFresh s) :
    totalRT s = specTotalDisplayRows s := by
  rw [totalRT, specTotalDisplayRows]
  suffices h : ∀ (idxs : List Nat) (acc : Nat), (∀ i ∈ idxs, i < s.lines.length) →
      prefixRT s idxs acc = acc + ((idxs.filter (freshMatch s)).map
        (fun i => (pyWrap s.charWidth (availableWidth s) (s.lines.getD i [])).length)).sum by
    rw [h (List.range s.lines.length) 0 (by intro i hi; simpa using hi)]
    simp
  intro idxs
  induction idxs with
  | nil => intro acc _; simp [prefixRT]
  | cons i rest ih =>
    intro acc hin
    have hi := hin i (by simp)
    obtain ⟨hwf, hmf⟩ := hf i hi
    have hcount : countRT s i =
        (pyWrap s.charWidth (availableWidth s) (s.lines.getD i [])).length := by
      rw [countRT]
      split
      · rename_i hemp
        rw [hemp, pyWrap_empty]
        rfl
      · rw [hwf]
    rw [prefixRT, hmf, List.filter_cons]
    by_cases hm : freshMatch s i = true
    · rw [if_pos hm, if_pos hm]
      rw [ih (acc + countRT s i) (by intro j hj; exact hin j (by simp [hj]))]
      rw [hcount]
      simp only [List.map_cons, List.sum_cons]
      omega
    · rw [if_neg hm, if_neg hm]
      exact ih acc (by intro j hj; exact hin j (by simp [hj]))

theorem scheduleUpdate_dirty (s : Widget) :
    (scheduleUpdate s).totalDisplayLinesDirty = s.totalDisplayLinesDirty := by
  obtain ⟨p, h⟩ := scheduleUpdate_frame s; rw [h]

theorem updateMetrics_good_of_dirty (s : Widget)
    (h : s.totalDisplayLinesDirty = true) : goodTotal (updateMetrics s) := by
  simp only [updateMetrics]
  exact updateScrollbars_good_of_dirty _ h

theorem updateLineNumWidthDynamic_good_of_dirty (s : Widget)
    (h : s.totalDisplayLinesDirty = true) :
    goodTotal (updateLineNumWidthDynamic s) := by
  simp only [updateLineNumWidthDynamic]
  split
  · exact Or.inl h
  · split
    · exact updateMetrics_good_of_dirty s h
    · exact Or.inl h

theorem appendRawBytes_good (s : Widget) (data : List Nat) (now : Nat)
    (hd : data ≠ []) : goodTotal (appendRawBytes s data now) := by
  rw [appendRawBytes, if_neg hd]
  simp only
  split
  · split
    · exact updateLineNumWidthDynamic_good_of_dirty _ rfl
    · refine Or.inl ?_
      rw [scheduleUpdate_dirty]
      rfl
  · refine Or.inl ?_
    rw [scheduleUpdate_dirty]
    rfl

theorem trimLinesIfNeeded_good (s : Widget) (h : s.maxLines < s.lines.length) :
    goodTotal (trimLinesIfNeeded s) := by
  rw [trimLinesIfNeeded, if_neg (by omega)]
  simp only
  exact updateScrollbars_good_of_dirty _ rfl

/-- C1 counterexample: `"aaaa"` fits one display row at a 200 px viewport
and the total 1 is computed and cached; a resize to 100 px shrinks the
available text width from 130 px to 30 px (the line now wraps into two
rows), but `resizeEvent` never invalidates the cached total, so
`total_display_rows()` still returns the stale 1 while the independent
recomputation gives 2. -/
theorem total_display_rows_counterexample :
    cexC1 = resizeEvent (resizeEvent (appendRawBytes fixW0 (bytesOf "aaaa\n") 1) 200) 100 ∧
    availableWidth cexC1 ≠
      availableWidth (resizeEvent (appendRawBytes fixW0 (bytesOf "aaaa\n") 1) 200) ∧
    (getTotalDisplayLines cexC1).1 = 1 ∧
    specTotalDisplayRows cexC1 = 2 ∧
    (getTotalDisplayLines cexC1).1 ≠ specTotalDisplayRows cexC1 :=
  ⟨rfl, by decide, by decide, by decide, by decide⟩

/-- C1 amended: after the operations that do invalidate or refresh the total
cache — an append of data, a trim-triggering `set_max_lines`, a filter
enable/pattern change, a font change — `total_display_rows()` equals the
independently recomputed sum over filter-passing lines of wrap-segment
counts at the current width, provided the per-line caches hold no stale
entries; a bare resize is not such an operation (it leaves the cached
total stale, see the counterexample). -/
theorem total_display_rows_after_ops (s : Widget) (data : List Nat) (now m : Nat)
    (b : Bool) (p : Option FilterPat) (cw : Char → Nat) :
    (data ≠ [] → cachesFresh (appendRawBytes s data now) →
      (getTotalDisplayLines (appendRawBytes s data now)).1 =
        specTotalDisplayRows (appendRawBytes s data now)) ∧
    (max m 1 < s.lines.length → cachesFresh (setMaxLines s m) →
      (getTotalDisplayLines (setMaxLines s m)).1 =
        specTotalDisplayRows (setMaxLines s m)) ∧
    (cachesFresh (setFilterEnabledOp s b) →
      (getTotalDisplayLines (setFilterEnabledOp s b)).1 =
        specTotalDisplayRows (setFilterEnabledOp s b)) ∧
    (cachesFresh (setFilterPatternOp s p) →
      (getTotalDisplayLines (setFilterPatternOp s p)).1 =
        specTotalDisplayRows (setFilterPatternOp s p)) ∧
    (cachesFresh (setFontWidths s cw) →
      (getTotalDisplayLines (setFontWidths s cw)).1 =
        specTotalDisplayRows (setFontWidths s cw)) := by
  refine ⟨?_, ?_, ?_, ?_, ?_⟩
  · intro hd hf
    rw [getTotal_val _ (appendRawBytes_good s data now hd)]
    exact totalRT_eq_spec _ hf
  · intro hm hf
    rw [setMaxLines] at hf ⊢
    rw [getTotal_val _ (trimLinesIfNeeded_good _ (by simpa using hm))]
    exact totalRT_eq_spec _ hf
  · intro hf
    rw [setFilterEnabledOp] at hf ⊢
    rw [getTotal_val _ (updateScrollbars_good_of_dirty _ rfl)]
    exact totalRT_eq_spec _ hf
  · intro hf
    rw [setFilterPatternOp] at hf ⊢
    rw [getTotal_val _ (updateScrollbars_good_of_dirty _ rfl)]
    exact totalRT_eq_spec _ hf
  · intro hf
    rw [setFontWidths] at hf ⊢
    rw [getTotal_val _ (updateMetrics_good_of_dirty _ rfl)]
    exact totalRT_eq_spec _ hf

/-- Witness for the amended C1: an append and each cache-refreshing setter
at concrete states. -/
theorem total_display_rows_after_ops_witness :
    (bytesOf "hi\n" ≠ [] ∧ cachesFresh (appendRawBytes fixW0 (bytesOf "hi\n") 1) ∧
     (getTotalDisplayLines (appendRawBytes fixW0 (bytesOf "hi\n") 1)).1 =
       specTotalDisplayRows (appendRawBytes fixW0 (bytesOf "hi\n") 1)) ∧
    (max 1 1 < cexC7.lines.length ∧ cachesFresh (setMaxLines cexC7 1) ∧
     (getTotalDisplayLines (setMaxLines cexC7 1)).1 =
       specTotalDisplayRows (setMaxLines cexC7 1)) ∧
    (cachesFresh (setFilterEnabledOp fixW0 true) ∧
     (getTotalDisplayLines (setFilterEnabledOp fixW0 true)).1 =
       specTotalDisplayRows (setFilterEnabledOp fixW0 true)) :=
  ⟨⟨by decide, by decide,
      (total_display_rows_after_ops fixW0 (bytesOf "hi\n") 1 1 true none cw10).1
        (by decide) (by decide)⟩,
   ⟨by decide, by decide,
      (total_display_rows_after_ops cexC7 (bytesOf "hi\n") 1 1 true none cw10).2.1
        (by decide) (by decide)⟩,
   ⟨by decide,
      (total_display_rows_after_ops fixW0 (bytesOf "hi\n") 1 1 true none cw10).2.2.1
        (by decide)⟩⟩

/-! ### Claim C5: the display-row mappings are inverse -/

theorem countRT_eq_length (s : Widget) (i : Nat) :
    countRT s i = (wrappedRT s i).length := by
  rw [countRT, wrappedRT]
  split
  · rfl
  · rfl

theorem wrappedRT_of_empty (s : Widget) (i : Nat) (h : s.lines.getD i [] = []) :
    wrappedRT s i = [[]] := by
  rw [wrappedRT]
  simp only [h]
  rfl

/-- A well-formed wrap cache yields nonempty segments for every nonempty
live line, whether the value is cached or freshly computed. -/
theorem wrappedRT_segs_ne_nil (s : Widget) (hc : wrapCacheWF s) (i : Nat)
    (ht : s.lines.getD i [] ≠ []) :
    ∀ seg ∈ wrappedRT s i, seg ≠ [] := by
  rw [wrappedRT]
  simp only [ht, if_neg, not_false_iff]
  cases hl : alookup s.wrappedCache (i + s.lineOffset, availableWidth s) with
  | some v =>
    simp only [hl]
    exact (hc _ v hl).2
  | none =>
    simp only [hl]
    intro seg hseg
    exact ((pyWrapCore_props s.charWidth (availableWidth s) _ ht).1 seg hseg).2

theorem prefixRT_cons (s : Widget) (i : Nat) (rest : List Nat) (acc : Nat) :
    prefixRT s (i :: rest) acc =
      prefixRT s rest (if matchesRT s i then acc + countRT s i else acc) := by
  rw [prefixRT]
  split
  · rfl
  · rfl

theorem prefixRT_append (s : Widget) :
    ∀ (xs ys : List Nat) (acc : Nat),
      prefixRT s (xs ++ ys) acc = prefixRT s ys (prefixRT s xs acc) := by
  intro xs
  induction xs with
  | nil => intro ys acc; rfl
  | cons x rest ih =>
    intro ys acc
    rw [List.cons_append, prefixRT_cons, prefixRT_cons, ih]

theorem prefixRT_range_succ (s : Widget) (a : Nat) :
    prefixRT s (List.range (a + 1)) 0 =
      if matchesRT s a then prefixRT s (List.range a) 0 + countRT s a
      else prefixRT s (List.range a) 0 := by
  rw [List.range_succ, prefixRT_append, prefixRT_cons]
  split
  · rfl
  · rfl

/-- `segScan` finds the segment whose character range starts at the summed
lengths of the segments before it, provided that segment is nonempty. -/
theorem segScan_spec :
    ∀ (w : List Text) (j cc j0 : Nat) (hj : j < w.length),
      w.get ⟨j, hj⟩ ≠ [] →
      segScan (cc + sumLens (w.take j)) w cc j0 = some (j0 + j) := by
  intro w
  induction w with
  | nil => intro j cc j0 hj; simp at hj
  | cons seg rest ih =>
    intro j cc j0 hj hne
    cases j with
    | zero =>
      rw [segScan]
      rw [if_pos (by
        simp only [List.take_zero, sumLens, List.map_nil, List.sum_nil, Nat.add_zero]
        have hpos : 0 < seg.length := List.length_pos.2 (by simpa using hne)
        omega)]
      simp
    | succ j' =>
      rw [segScan]
      rw [if_neg (by
        simp only [List.take_succ_cons, sumLens, List.map_cons, List.sum_cons]
        omega)]
      have heq : cc + sumLens (List.take (j' + 1) (seg :: rest)) =
          (cc + seg.length) + sumLens (List.take j' rest) := by
        simp only [List.take_succ_cons, sumLens, List.map_cons, List.sum_cons]
        omega
      rw [heq]
      rw [ih j' (cc + seg.length) (j0 + 1) (by simpa using hj) (by simpa using hne)]
      congr 1
      omega

theorem dispToSrcPure_congr {s s' : Widget} (h : RTpres s s') :
    ∀ (idxs : List Nat) (d cur : Nat),
      dispToSrcPure s' d idxs cur = dispToSrcPure s d idxs cur := by
  intro idxs
  induction idxs with
  | nil => intro d cur; rfl
  | cons i rest ih =>
    intro d cur
    rw [dispToSrcPure, dispToSrcPure, matchesRT_congr h, countRT_congr h,
      wrappedRT_congr h, h.1]
    split
    · split
      · rfl
      · exact ih d (cur + countRT s i)
    · exact ih d cur

theorem srcToDispPure_congr {s s' : Widget} (h : RTpres s s') (r c : Nat) :
    srcToDispPure s' r c = srcToDispPure s r c := by
  rw [srcToDispPure, srcToDispPure, h.1, matchesRT_congr h, wrappedRT_congr h,
    prefixRT_congr h]

theorem dispToSrcGo_spec :
    ∀ (idxs : List Nat) (s : Widget) (cur d : Nat),
      (∀ i ∈ idxs, i < s.lines.length) →
      (dispToSrcGo s idxs cur d).1 = dispToSrcPure s d idxs cur ∧
      RTpres s (dispToSrcGo s idxs cur d).2 := by
  intro idxs
  induction idxs with
  | nil => intro s cur d _; exact ⟨rfl, RTpres_refl s⟩
  | cons i rest ih =>
    intro s cur d hin
    simp only [dispToSrcGo, dispToSrcPure]
    obtain ⟨hm, hmp⟩ := lineMatchesFilter_spec s (s.lines.getD i []) i rfl
    rw [hm]
    split
    · obtain ⟨hc, hcp⟩ := getDisplayLineCount_spec
        (lineMatchesFilter s (s.lines.getD i []) i).2 i
        (by rw [hmp.1]; exact hin i (by simp))
      have hp₂ : RTpres s (getDisplayLineCount (lineMatchesFilter s (s.lines.getD i []) i).2 i).2 :=
        RTpres_trans hmp hcp
      rw [hc, countRT_congr hmp]
      split
      · obtain ⟨hwv, hwp⟩ := getWrappedLines_spec
          (getDisplayLineCount (lineMatchesFilter s (s.lines.getD i []) i).2 i).2
          (s.lines.getD i []) i (by rw [hp₂.1])
        have hp₃ : RTpres s (getWrappedLines
            (getDisplayLineCount (lineMatchesFilter s (s.lines.getD i []) i).2 i).2
            (s.lines.getD i []) i).2 :=
          RTpres_trans hp₂ hwp
        rw [hwv, wrappedRT_congr hp₂]
        split
        · exact ⟨rfl, hp₃⟩
        · exact ⟨rfl, hp₃⟩
      · obtain ⟨hv, hp⟩ := ih
          (getDisplayLineCount (lineMatchesFilter s (s.lines.getD i []) i).2 i).2
          (cur + countRT s i) d
          (by intro j hj; rw [hp₂.1]; exact hin j (by simp [hj]))
        refine ⟨?_, RTpres_trans hp₂ hp⟩
        rw [hv, dispToSrcPure_congr hp₂]
    · obtain ⟨hv, hp⟩ := ih (lineMatchesFilter s (s.lines.getD i []) i).2 cur d
        (by intro j hj; rw [hmp.1]; exact hin j (by simp [hj]))
      refine ⟨?_, RTpres_trans hmp hp⟩
      rw [hv, dispToSrcPure_congr hmp]

theorem sourceToDisplayRow_spec (s : Widget) (r c : Nat) :
    (sourceToDisplayRow s r c).1 = srcToDispPure s r c := by
  rw [sourceToDisplayRow, srcToDispPure]
  split
  · rfl
  · rename_i hr
    simp only
    obtain ⟨hpv, hpp⟩ := filterCountGo_spec (List.range r) s 0
      (by intro i hi
          have : i < r := by simpa using hi
          omega)
    obtain ⟨hm, hmp⟩ := lineMatchesFilter_spec
      (filterCountGo s (List.range r) 0).2
      ((filterCountGo s (List.range r) 0).2.lines.getD r []) r rfl
    have hmS : (lineMatchesFilter (filterCountGo s (List.range r) 0).2
        ((filterCountGo s (List.range r) 0).2.lines.getD r []) r).1 = matchesRT s r := by
      rw [hm, matchesRT_congr hpp]
    rw [hmS, hpv]
    split
    · rfl
    · obtain ⟨hwv, hwp⟩ := getWrappedLines_spec
        (lineMatchesFilter (filterCountGo s (List.range r) 0).2
          ((filterCountGo s (List.range r) 0).2.lines.getD r []) r).2
        ((filterCountGo s (List.range r) 0).2.lines.getD r []) r
        (by rw [hmp.1])
      have hwS : (getWrappedLines
          (lineMatchesFilter (filterCountGo s (List.range r) 0).2
            ((filterCountGo s (List.range r) 0).2.lines.getD r []) r).2
          ((filterCountGo s (List.range r) 0).2.lines.getD r []) r).1 =
          wrappedRT s r := by
        rw [hwv, wrappedRT_congr hmp, wrappedRT_congr hpp]
      rw [hwS]
      cases hseg : segScan c (wrappedRT s r) 0 0 with
      | some j => simp only [hseg]
      | none => simp only [hseg]

theorem segScan_zero (w : List Text) (j : Nat) (hj : j < w.length)
    (hne : w.get ⟨j, hj⟩ ≠ []) :
    segScan (sumLens (w.take j)) w 0 0 = some j := by
  have h := segScan_spec w j 0 0 hj hne
  simpa using h

theorem dispToSrcPure_isSome (s : Widget) :
    ∀ (idxs : List Nat) (cur d : Nat), cur ≤ d → d < prefixRT s idxs cur →
      (dispToSrcPure s d idxs cur).isSome := by
  intro idxs
  induction idxs with
  | nil =>
    intro cur d hcd h
    rw [prefixRT] at h
    omega
  | cons i rest ih =>
    intro cur d hcd h
    rw [dispToSrcPure]
    rw [prefixRT_cons] at h
    by_cases hm : matchesRT s i = true
    · rw [if_pos hm] at h
      rw [if_pos hm]
      by_cases hgt : cur + countRT s i > d
      · rw [if_pos hgt]
        split
        · simp
        · simp
      · rw [if_neg hgt]
        exact ih (cur + countRT s i) d (by omega) h
    · rw [if_neg hm] at h
      rw [if_neg hm]
      exact ih cur d hcd h

theorem dispToSrc_inverse_pure (s : Widget)
    (hwf : ∀ i, i < s.lines.length → s.lines.getD i [] ≠ [] →
      ∀ seg ∈ wrappedRT s i, seg ≠ []) :
    ∀ (k a d r c : Nat),
      a + k = s.lines.length →
      prefixRT s (List.range a) 0 ≤ d →
      dispToSrcPure s d (List.range' a k) (prefixRT s (List.range a) 0) = some (r, c) →
      srcToDispPure s r c = d := by
  intro k
  induction k with
  | zero =>
    intro a d r c ha hle h
    rw [show List.range' a 0 = [] from rfl, dispToSrcPure] at h
    simp at h
  | succ k ih =>
    intro a d r c ha hle h
    rw [show List.range' a (k + 1) = a :: List.range' (a + 1) k from rfl,
      dispToSrcPure] at h
    by_cases hm : matchesRT s a = true
    · rw [if_pos hm] at h
      by_cases hgt : prefixRT s (List.range a) 0 + countRT s a > d
      · rw [if_pos hgt] at h
        have hlen : countRT s a = (wrappedRT s a).length := countRT_eq_length s a
        have hlt : d - prefixRT s (List.range a) 0 < (wrappedRT s a).length := by
          omega
        rw [if_pos hlt] at h
        simp only [Option.some.injEq, Prod.mk.injEq] at h
        obtain ⟨hr, hc⟩ := h
        subst hr
        subst hc
        rw [srcToDispPure]
        have halen : a < s.lines.length := by omega
        rw [if_neg (by omega)]
        simp only
        rw [if_neg (by rw [hm]; simp)]
        by_cases hemp : s.lines.getD a [] = []
        · have hw : wrappedRT s a = [[]] := wrappedRT_of_empty s a hemp
          have hd0 : d - prefixRT s (List.range a) 0 = 0 := by
            rw [hw] at hlt
            simp at hlt
            omega
          rw [hw, hd0]
          rw [show segScan (sumLens (List.take 0 [([] : Text)])) [([] : Text)] 0 0 =
            none from rfl]
          simp only [List.length_cons, List.length_nil]
          rw [hlen, hw] at hgt
          simp at hgt
          omega
        · have hsegs := hwf a halen hemp
          have hget : (wrappedRT s a).get ⟨d - prefixRT s (List.range a) 0, hlt⟩ ≠ [] :=
            hsegs _ (List.get_mem _ _ _)
          rw [segScan_zero (wrappedRT s a) (d - prefixRT s (List.range a) 0) hlt hget]
          simp only
          omega
      · rw [if_neg hgt] at h
        have hpre : prefixRT s (List.range (a + 1)) 0 =
            prefixRT s (List.range a) 0 + countRT s a := by
          rw [prefixRT_range_succ, if_pos hm]
        refine ih (a + 1) d r c (by omega) (by omega) ?_
        rw [hpre]
        exact h
    · rw [if_neg hm] at h
      have hpre : prefixRT s (List.range (a + 1)) 0 = prefixRT s (List.range a) 0 := by
        rw [prefixRT_range_succ, if_neg hm]
      refine ih (a + 1) d r c (by omega) (by omega) ?_
      rw [hpre]
      exact h

theorem wrapCacheWF_of_nil (s : Widget) (h : s.wrappedCache = []) : wrapCacheWF s := by
  intro k v hv
  rw [h] at hv
  simp at hv

/-- C5: the two display mappings are inverse — for every state whose wrap
cache is well formed (as every entry the widget stores is) and every display
row `d` below the recomputed total, mapping `d` to a source position and
back yields `d` again. -/
theorem display_source_roundtrip (s : Widget) (d : Nat)
    (hc : wrapCacheWF s) (hd : d < totalRT s) :
    (sourceToDisplayRow (displayRowToSource s d).2
      (displayRowToSource s d).1.1 (displayRowToSource s d).1.2).1 = d := by
  have hwf : ∀ i, i < s.lines.length → s.lines.getD i [] ≠ [] →
      ∀ seg ∈ wrappedRT s i, seg ≠ [] :=
    fun i _ ht => wrappedRT_segs_ne_nil s hc i ht
  obtain ⟨hgv, hgp⟩ := dispToSrcGo_spec (List.range s.lines.length) s 0 d
    (by intro i hi; simpa using hi)
  have hsome : (dispToSrcPure s d (List.range s.lines.length) 0).isSome := by
    refine dispToSrcPure_isSome s (List.range s.lines.length) 0 d (Nat.zero_le d) ?_
    exact hd
  obtain ⟨rc, hrc⟩ := Option.isSome_iff_exists.1 hsome
  have h1 : (dispToSrcGo s (List.range s.lines.length) 0 d).1 = some rc := by
    rw [hgv, hrc]
  have hgo : dispToSrcGo s (List.range s.lines.length) 0 d =
      (some rc, (dispToSrcGo s (List.range s.lines.length) 0 d).2) :=
    Prod.ext h1 rfl
  have hdisp : displayRowToSource s d =
      (rc, (dispToSrcGo s (List.range s.lines.length) 0 d).2) := by
    rw [displayRowToSource, hgo]
  rw [hdisp]
  obtain ⟨r, c⟩ := rc
  rw [sourceToDisplayRow_spec]
  rw [srcToDispPure_congr hgp]
  refine dispToSrc_inverse_pure s hwf s.lines.length 0 d r c (by omega)
    (Nat.zero_le d) ?_
  rw [show prefixRT s (List.range 0) 0 = 0 from rfl]
  rw [← List.range_eq_range']
  exact hrc

/-- Witness for C5 at a filtered, wrapped 2-line state: display row 1 is the
second wrap segment of line 0, and the round trip returns 1. -/
theorem display_source_roundtrip_witness :
    wrapCacheWF witC5 ∧ 1 < totalRT witC5 ∧
    (sourceToDisplayRow (displayRowToSource witC5 1).2
      (displayRowToSource witC5 1).1.1 (displayRowToSource witC5 1).1.2).1 = 1 :=
  ⟨wrapCacheWF_of_nil witC5 (by decide), by decide,
    display_source_roundtrip witC5 1 (wrapCacheWF_of_nil witC5 (by decide)) (by decide)⟩

end SPM
